import Mathlib

/-!
# Verification of the metric normalization and comparative-analysis pipeline

Shallow embedding of `scripts/report_summary.py` (MLflow performance test
report generator).  The embedding models:

* Python numbers occurring in the pipeline as rationals (`ℚ`).  IEEE
  floating point is abstracted to exact rational arithmetic; the single
  non-finite value that the pipeline can actually produce and propagate,
  `NaN` (from a missing cell of the pandas `DataFrame`), is modelled
  explicitly by the type `PyNum` below.
* Python `round(x, n)` as round-half-to-even on rationals.
* Python dictionaries as ordered association lists (`insert at end,
  overwrite in place`), matching CPython's insertion-ordered dicts.
* pandas `DataFrame`s as lists of rows; a missing cell (`NaN`) of a row is
  an absent key of the association list, which is exactly how the `NaN`s
  arise in the script (`pd.DataFrame(records)` with heterogeneous keys).

The definitions follow the Python source function by function; the
theorems at the end settle the frozen claims about the script.
-/

/-! ## Python `round` on rationals -/

/-- Round a rational to the nearest integer, ties to the even integer
(Python / IEEE-754 `round-half-even`). -/
def roundHalfEven (x : ℚ) : ℤ :=
  if x - (⌊x⌋ : ℚ) < 1/2 then ⌊x⌋
  else if 1/2 < x - (⌊x⌋ : ℚ) then ⌊x⌋ + 1
  else if ⌊x⌋ % 2 = 0 then ⌊x⌋ else ⌊x⌋ + 1

/-- Python's `round(x, nd)` on rationals: round-half-even at `nd` decimal
digits. -/
def pyRoundQ (nd : ℕ) (x : ℚ) : ℚ :=
  (roundHalfEven (x * (10 : ℚ) ^ nd) : ℚ) / (10 : ℚ) ^ nd

/-! ## Python float values flowing through the analysis

`PyNum` is a Python float that is either an ordinary (rational) number or
`NaN`.  `NaN` enters the comparative-analysis code through
`row[p95_col].values[0]` when the experiment matrix has no value for that
operation in that row; arithmetic and `round` propagate it, `x == 0` is
`False` for it, and it is truthy. -/

inductive PyNum where
  | num (q : ℚ)
  | nan
deriving DecidableEq, Repr

namespace PyNum

/-- Python `+` with `NaN` propagation. -/
def add : PyNum → PyNum → PyNum
  | num a, num b => num (a + b)
  | _, _ => nan

/-- Python `-` with `NaN` propagation. -/
def sub : PyNum → PyNum → PyNum
  | num a, num b => num (a - b)
  | _, _ => nan

/-- Python `*` with `NaN` propagation. -/
def mul : PyNum → PyNum → PyNum
  | num a, num b => num (a * b)
  | _, _ => nan

/-- Python `/` with `NaN` propagation.  Division by zero raises in Python;
it is modelled as `nan` here and is unreachable in the embedded code (the
only divisions are guarded by `baseline == 0` checks or a positive list
length). -/
def div : PyNum → PyNum → PyNum
  | num a, num b => if b = 0 then nan else num (a / b)
  | _, _ => nan

/-- Python truthiness of a float: `0.0` is falsy, every other float —
including `NaN` — is truthy. -/
def truthy : PyNum → Bool
  | num q => decide (q ≠ 0)
  | nan => true

/-- Python `x == 0` on a float: `False` for `NaN`. -/
def isZero : PyNum → Bool
  | num q => decide (q = 0)
  | nan => false

end PyNum

/-- Python `round(x, nd)` lifted to `PyNum` (`round(nan, nd)` is `nan`). -/
def pyRoundP (nd : ℕ) : PyNum → PyNum
  | .num q => .num (pyRoundQ nd q)
  | .nan => .nan

/-- Numpy mean `np.mean` of a list of floats: sum divided by length, `NaN`
propagating.  Only applied to nonempty lists in the embedded code. -/
def pyMean (l : List PyNum) : PyNum :=
  (l.foldl PyNum.add (.num 0)).div (.num (l.length : ℚ))

/-! ## Python string primitives

Strings are Lean `String`s; the two Python primitives the script uses on
metric and column names are `str.endswith` and `str.replace` (which
replaces **all** non-overlapping occurrences, left to right). -/

/-- Python `s.endswith(suffix)`. -/
def pyEndsWith (s suf : String) : Bool := suf.data.isSuffixOf s.data

/-- Worker for `replaceAll`, structurally recursive on a fuel argument so
that it reduces in the kernel.  Every recursive call consumes at least one
character, so any fuel of at least the list length gives the fuel-free
semantics; the `0, s => s` fallback is never reached from `replaceAll`. -/
def replaceAllGo (pat : List Char) : ℕ → List Char → List Char
  | _, [] => []
  | 0, s => s
  | fuel + 1, c :: rest =>
    if pat ≠ [] ∧ pat.isPrefixOf (c :: rest) = true then
      replaceAllGo pat fuel ((c :: rest).drop pat.length)
    else
      c :: replaceAllGo pat fuel rest

/-- Replace all non-overlapping occurrences of `pat` in `s`, scanning left
to right — the semantics of Python `str.replace` (for nonempty `pat`; an
empty `pat` leaves the list unchanged, a case the script never exercises
because all its patterns are literal suffixes). -/
def replaceAll (pat s : List Char) : List Char := replaceAllGo pat s.length s

/-- Python `s.replace(pat, '')`. -/
def pyReplace (s pat : String) : String := String.mk (replaceAll pat.data s.data)

/-! ## Python dicts of numeric fields (flat rows)

A flat row produced by the Record Extractor, and a row of the
`ExperimentMatrix`, is a Python dict from field name to float.  It is
modelled as an insertion-ordered association list: assignment overwrites
in place or appends at the end, exactly CPython's dict semantics.  An
absent key of a matrix row models the `NaN` that pandas places in a cell
when `pd.DataFrame(records)` unions heterogeneous key sets. -/

/-- One flat mapping of field name to numeric value. -/
abbrev Row : Type := List (String × ℚ)

/-- Dict assignment `row[k] = v`: overwrite in place, else append. -/
def setField : Row → String → ℚ → Row
  | [], k, v => [(k, v)]
  | (k', v') :: rest, k, v =>
    if k' = k then (k, v) :: rest else (k', v') :: setField rest k v

/-- A sequence of dict assignments, in order. -/
def setFields (r : Row) (kvs : List (String × ℚ)) : Row :=
  kvs.foldl (fun r kv => setField r kv.1 kv.2) r

/-- Dict lookup `row[k]` (`none` when the key is absent). -/
def getField? (r : Row) (k : String) : Option ℚ :=
  (r.find? (fun p => p.1 == k)).map Prod.snd

/-! ## Operation Categorizer (`OPERATION_CATEGORIES`, `_get_operation_category`) -/

/-- The static category table of `report_summary.py`, in source order. -/
def OPERATION_CATEGORIES : List (String × List String) :=
  [("read", ["get_run", "get_experiment", "fetch_artifact", "list_artifacts",
             "list_workspaces"]),
   ("write", ["create_run", "create_experiment", "log_metric", "log_parameter",
              "log_artifact", "update_run_status", "create_prompt",
              "create_prompt_version"]),
   ("search", ["search_runs", "search_experiments", "search_prompts"])]

/-- Source `_get_operation_category`: first category whose list contains the
operation, else `"other"` (exact string equality, as in the source). -/
def getOperationCategory (op : String) : String :=
  match OPERATION_CATEGORIES.find? (fun p => p.2.contains op) with
  | some p => p.1
  | none => "other"

/-! ## Record Extractor (`extract_metrics`) -/

/-- One metric entry of a run summary: the `type` discriminator (absent
keys of the source JSON are `none`, mirroring `metric_data.get('type')`)
and the `values` mapping (`metric_data.get('values', {})` is folded into
the structure: a missing `values` key is the empty list). -/
structure Metric where
  type? : Option String
  values : List (String × ℚ)
deriving DecidableEq, Repr

/-- The `data` sub-mapping of a run summary document. -/
structure RunData where
  metrics? : Option (List (String × Metric))
deriving DecidableEq, Repr

/-- One raw run-summary document (`summary_*.json`), reduced to the parts
`extract_metrics` reads: the root identity fields and `data.metrics`.
The metrics dict is an association list in document order; JSON objects
have unique keys. -/
structure RunSummary where
  tenants? : Option ℚ
  concurrency? : Option ℚ
  data? : Option RunData
deriving DecidableEq, Repr

/-- Evaluates `summary.get('data', {}).get('metrics', {})`. -/
def metricsOf (s : RunSummary) : List (String × Metric) :=
  match s.data? with
  | none => []
  | some d => d.metrics?.getD []

/-- Evaluates `values.get(k, 0)`. -/
def vget (values : List (String × ℚ)) (k : String) : ℚ :=
  ((values.find? (fun p => p.1 == k)).map Prod.snd).getD 0

/-- Evaluates `metrics[k]` when `k in metrics` (first binding; dict keys are
unique). -/
def lookupMetric (metrics : List (String × Metric)) (k : String) : Option Metric :=
  (metrics.find? (fun p => p.1 == k)).map Prod.snd

/-- The dict assignments performed for one metric entry of the single-pass
loop of `extract_metrics`, in source order.  Note that `base_name` is
computed with Python `str.replace`, which removes **every** occurrence of
the suffix pattern, not only the trailing one. -/
def entryFields (nm : String) (m : Metric) : List (String × ℚ) :=
  if pyEndsWith nm "_response_time" && (m.type? == some "trend") then
    let base := pyReplace nm "_response_time"
    [(base ++ "_avg_ms", vget m.values "avg"),
     (base ++ "_p90_ms", vget m.values "p(90)"),
     (base ++ "_p95_ms", vget m.values "p(95)"),
     (base ++ "_max_ms", vget m.values "max")]
  else if pyEndsWith nm "_passed" && (m.type? == some "counter") then
    let base := pyReplace nm "_passed"
    [(base ++ "_passed", vget m.values "count"),
     (base ++ "_rps", vget m.values "rate")]
  else if pyEndsWith nm "_failed" && (m.type? == some "counter") then
    let base := pyReplace nm "_failed"
    [(base ++ "_failed", vget m.values "count")]
  else []

/-- Stage 0 of `extract_metrics`: the initial `result` dict holding the
two identity fields, each `summary.get(k, 0)`. -/
def extractRow0 (s : RunSummary) : Row :=
  [("tenants", s.tenants?.getD 0), ("concurrency", s.concurrency?.getD 0)]

/-- Stage 1 of `extract_metrics`: the single pass over all metric
entries, in document order. -/
def extractRow1 (s : RunSummary) : Row :=
  (metricsOf s).foldl (fun r e => setFields r (entryFields e.1 e.2)) (extractRow0 s)

/-- Stage 2 of `extract_metrics`: the `http_reqs` extraction. -/
def extractRow2 (s : RunSummary) : Row :=
  match lookupMetric (metricsOf s) "http_reqs" with
  | some m => setFields (extractRow1 s)
      [("http_reqs_total", vget m.values "count"),
       ("http_reqs_rate", vget m.values "rate")]
  | none => extractRow1 s

/-- Source `extract_metrics(summary)`: identity fields (defaulting to 0), a
single pass over all metric entries, then the `http_reqs` and
`http_req_failed` extractions, composed from the stages above.  Total: a
document lacking `data.metrics` yields just the identity fields (the
Python code cannot raise there, the lookups all being `dict.get` with
defaults). -/
def extract_metrics (s : RunSummary) : Row :=
  match lookupMetric (metricsOf s) "http_req_failed" with
  | some m => setFields (extractRow2 s)
      [("http_req_failed_rate", vget m.values "rate"),
       ("http_req_failed_count", vget m.values "passes")]
  | none => extractRow2 s

/-! ## Metrics Table Loader (`load_metrics_csv_files`) -/

/-- One parsed line of a Prometheus-style metrics CSV (comment lines are
already skipped by `pd.read_csv(..., comment='#')`).  The raw cell text of
the `value` column is kept as a string; the loader does not interpret
it. -/
structure CsvRow where
  component : String
  metric : String
  aggregation : String
  unitName : String
  value : String
deriving DecidableEq, Repr

/-- One file offered to the loader: its base filename and either its
parsed table or `none` when `pd.read_csv` raises (the `except` branch that
logs a warning and skips the file). -/
structure MetricsFile where
  filename : String
  table? : Option (List CsvRow)
deriving DecidableEq, Repr

/-- One row of the unified metrics table: the CSV fields plus the
`experiment` tag and the `(tenants, concurrency)` pair parsed from it
(`none` = pandas `NaN`/`None`). -/
structure MetricRow where
  component : String
  metric : String
  aggregation : String
  unitName : String
  value : String
  experiment : String
  tenants? : Option ℕ
  concurrency? : Option ℕ
deriving DecidableEq, Repr

/-- Does this character list start with `.csv` or `.log`?  (The
alternation `\.(csv|log)` of the filename pattern.) -/
def extOK (l : List Char) : Bool :=
  ".csv".data.isPrefixOf l || ".log".data.isPrefixOf l

/-- Group 1 of `re.match(r'metrics_(.+)\.(csv|log)', filename)`, with the
full filename as fallback on no match.  `re.match` anchors at the start
only; the greedy `(.+)` takes the longest nonempty run that still leaves a
literal `.` followed by `csv` or `log` (anything may follow, there being
no `$`). -/
def metricsTag (filename : String) : String :=
  let fd := filename.data
  if "metrics_".data.isPrefixOf fd then
    let r := fd.drop 8
    match ((List.range (r.length + 1)).filter
        (fun k => decide (1 ≤ k) && extOK (r.drop k))).getLast? with
    | some k => String.mk (r.take k)
    | none => filename
  else filename

/-- Numeric value of a run of decimal digits (what `int()` does to
`match.group(i)`). -/
def digitsVal (ds : List Char) : ℕ :=
  ds.foldl (fun n c => 10 * n + (c.toNat - 48)) 0

/-- Source `parse_experiment`: match the tag against `(\d+)_concurrency_(\d+)`
(anchored at the start, trailing text allowed), returning the two parsed
integers on a match and `(None, None)` otherwise. -/
def parse_experiment (exp : String) : Option ℕ × Option ℕ :=
  let d := exp.data
  let d1 := d.takeWhile Char.isDigit
  let r1 := d.drop d1.length
  if d1.isEmpty then (none, none)
  else if "_concurrency_".data.isPrefixOf r1 then
    let r2 := r1.drop 13
    let d2 := r2.takeWhile Char.isDigit
    if d2.isEmpty then (none, none)
    else (some (digitsVal d1), some (digitsVal d2))
  else (none, none)

/-- Tag every row of one parsed file with its experiment tag and the
parsed `(tenants, concurrency)` pair.  (The script parses after the
`pd.concat`, via a row-wise `apply`; both orders tag each row
identically.) -/
def tagRows (tag : String) (rows : List CsvRow) : List MetricRow :=
  rows.map (fun cr =>
    { component := cr.component, metric := cr.metric,
      aggregation := cr.aggregation, unitName := cr.unitName,
      value := cr.value, experiment := tag,
      tenants? := (parse_experiment tag).1,
      concurrency? := (parse_experiment tag).2 })

/-- Source `load_metrics_csv_files`: `None` when no file matches the glob, `None`
again when every matched file fails to parse, otherwise the concatenation
of all successfully parsed tables, tagged. -/
def load_metrics_csv_files (files : List MetricsFile) : Option (List MetricRow) :=
  if files.isEmpty then none
  else
    let parsed := files.filterMap (fun f => f.table?.map (fun t => (metricsTag f.filename, t)))
    if parsed.isEmpty then none
    else some (parsed.flatMap (fun p => tagRows p.1 p.2))

/-- The rows that take part in a `(tenants, concurrency)`-indexed
operation.  Models pandas `groupby`/`pivot_table` on the two axis columns,
which silently drops rows whose key is `NaN` — this is how the charting
consumers (`_plot_mlflow_cpu`, `_plot_grouped_subplots`) see the table. -/
def pivotRows (rows : List MetricRow) : List MetricRow :=
  rows.filter (fun r => r.tenants?.isSome && r.concurrency?.isSome)

/-- The rows that take part in a component/metric-indexed aggregation
(`_plot_resource_utilization` filters on `component`/`metric` only): every
row with that component, the axis columns playing no part. -/
def componentRows (rows : List MetricRow) (c : String) : List MetricRow :=
  rows.filter (fun r => r.component == c)

/-! ## Experiment Matrix Builder (`create_dataframe`) -/

/-- The two sort keys of `df.sort_values(['tenants', 'concurrency'])` for
one row.  Both columns are always populated by `extract_metrics` (proved
below); the `getD 0` default is never exercised on its output. -/
def rowKey (r : Row) : ℚ × ℚ :=
  ((getField? r "tenants").getD 0, (getField? r "concurrency").getD 0)

/-- Lexicographic order on the two sort keys: tenants first, then
concurrency — the multi-column order of `sort_values`. -/
def pairLex (p q : ℚ × ℚ) : Prop :=
  p.1 < q.1 ∨ (p.1 = q.1 ∧ p.2 ≤ q.2)

instance : DecidableRel pairLex := fun p q => by
  unfold pairLex; infer_instance

/-- Row comparison used by the matrix sort. -/
def rowLE (a b : Row) : Prop := pairLex (rowKey a) (rowKey b)

instance : DecidableRel rowLE := fun a b => by
  unfold rowLE; infer_instance

instance : IsTotal Row rowLE :=
  ⟨by
    intro a b
    unfold rowLE pairLex
    rcases lt_trichotomy (rowKey a).1 (rowKey b).1 with h | h | h
    · exact Or.inl (Or.inl h)
    · rcases le_total (rowKey a).2 (rowKey b).2 with h2 | h2
      · exact Or.inl (Or.inr ⟨h, h2⟩)
      · exact Or.inr (Or.inr ⟨h.symm, h2⟩)
    · exact Or.inr (Or.inl h)⟩

instance : IsTrans Row rowLE :=
  ⟨by
    intro a b c hab hbc
    unfold rowLE pairLex at *
    rcases hab with h1 | ⟨h1, h1'⟩
    · rcases hbc with h2 | ⟨h2, _⟩
      · exact Or.inl (h1.trans h2)
      · exact Or.inl (h2 ▸ h1)
    · rcases hbc with h2 | ⟨h2, h2'⟩
      · exact Or.inl (h1 ▸ h2)
      · exact Or.inr ⟨h1.trans h2, h1'.trans h2'⟩⟩

/-- Source `create_dataframe`: extract one flat row per summary, then sort by
`(tenants, concurrency)` ascending.  pandas `sort_values` on two columns
always uses `np.lexsort`, a stable sort; any stable sort with the same
total preorder produces the same list, so insertion sort represents it
exactly. -/
def create_dataframe (summaries : List RunSummary) : List Row :=
  List.insertionSort rowLE (summaries.map extract_metrics)

/-! ## Comparative Analysis Engine (`save_latency_analysis_csv`)

The detailed records and the category summary are Python dicts whose
dynamic keys are the per-tenant-count column names
`f'{t}_tenant(s)_p95_ms'` and `f'change_{b}_to_{t}_pct'` (the summary
prefixes them with `avg_`).  The numeric formatting `t ↦ f'{t}'` is
injective on the axis values and the two name families are disjoint, so
the keys are modelled by the two-constructor type `DKey` indexed by the
numbers themselves.  A dict value is `Option PyNum`: `none` is Python
`None`, `some NaN` a float `NaN` — `pd.DataFrame.to_csv` writes both as an
empty cell. -/

/-- A dynamic column key of a detailed/summary record: the P95 column of
tenant count `t`, or the percentage-change column from baseline `b` to
tenant count `t`. -/
inductive DKey where
  | p95 (t : ℚ)
  | pct (b t : ℚ)
deriving DecidableEq, Repr

/-- A Python dict value of the analysis records. -/
abbrev DVal : Type := Option PyNum

/-- The dynamic fields of an analysis record. -/
abbrev DFields : Type := List (DKey × DVal)

/-- Dict lookup among the dynamic fields (`none` = key absent). -/
def dget? (fs : DFields) (k : DKey) : Option DVal :=
  (fs.find? (fun p => p.1 == k)).map Prod.snd

/-- What a looked-up field is worth in the exported CSV: `some q` when the
key is present with an ordinary number, `none` when the key is absent or
holds Python `None` or float `NaN` (both of which `to_csv` writes as an
empty cell). -/
def definedD : Option DVal → Option ℚ
  | some (some (.num q)) => some q
  | _ => none

/-- What a field holds in the exported CSV (see `definedD`). -/
def definedGet (fs : DFields) (k : DKey) : Option ℚ :=
  definedD (dget? fs k)

/-- Evaluates `sorted(xs.unique())` for a numeric column: the distinct values in
ascending order. -/
def sortedUnique (l : List ℚ) : List ℚ :=
  List.insertionSort (· ≤ ·) l.dedup

/-- Python `min` over a nonempty list (the `[]` case is never reached: the
engine requires at least two distinct tenant counts). -/
def pyMin : List ℚ → ℚ
  | [] => 0
  | h :: t => t.foldl min h

/-- The `tenants` cell of a matrix row.  `extract_metrics` always
populates it (proved below), so the `getD 0` default is never exercised
on a real matrix. -/
def matrixTenants (r : Row) : ℚ := (getField? r "tenants").getD 0

/-- The `concurrency` cell of a matrix row. -/
def matrixConc (r : Row) : ℚ := (getField? r "concurrency").getD 0

/-- Evaluates `df[(df['tenants'] == t) & (df['concurrency'] == conc)]` followed by
`.values[0]`: the first matching row, in matrix order. -/
def findRow (df : List Row) (t conc : ℚ) : Option Row :=
  df.find? (fun r => matrixTenants r == t && matrixConc r == conc)

/-- Evaluates `row[col].values[0]` seen as a float: the cell when present, `NaN`
when the matrix has no value there. -/
def cellOf (r : Row) (col : String) : PyNum :=
  match getField? r col with
  | some q => .num q
  | none => .nan

/-- Source `_calculate_pct_change(baseline, value)`: `None` when either argument
is `None` or the baseline equals zero (`NaN` does not equal zero), else
`round(((value - baseline) / baseline) * 100, 1)`. -/
def calculatePctChange (baseline value : Option PyNum) : Option PyNum :=
  match baseline, value with
  | none, _ => none
  | _, none => none
  | some b, some v =>
    if b.isZero then none
    else some (pyRoundP 1 (((v.sub b).div b).mul (.num 100)))

/-- Python truthiness of a float-or-`None` variable. -/
def truthyOpt : Option PyNum → Bool
  | none => false
  | some p => p.truthy

/-- First phase of the per-`(operation, concurrency)` loop: for each
tenant count in ascending order, if the matrix has a row at `(t, conc)`,
store `round(row[p95_col].values[0], 2)` under that tenant's P95 column.
The tenant counts are distinct, so each iteration appends a fresh key —
dict insertion order is the iteration order. -/
def p95Entry (df : List Row) (p95col : String) (conc t : ℚ) : DFields :=
  match findRow df t conc with
  | some r => [(DKey.p95 t, some (pyRoundP 2 (cellOf r p95col)))]
  | none => []

/-- The whole first phase, tenant count by tenant count. -/
def p95Fields (df : List Row) (p95col : String) (conc : ℚ) : List ℚ → DFields
  | [] => []
  | t :: ts => p95Entry df p95col conc t ++ p95Fields df p95col conc ts

/-- The `baseline_value` local of the first phase: the rounded P95 cell of
the row at `(baseline, conc)` when that row exists, else Python `None`.
(The loop assigns it at the iteration `t = baseline_tenants`; the baseline
is always a member of the tenant counts, being their minimum.) -/
def baselineVal (df : List Row) (p95col : String) (conc baseline : ℚ) : Option PyNum :=
  (findRow df baseline conc).map (fun r => pyRoundP 2 (cellOf r p95col))

/-- Second phase: for each non-baseline tenant count, if its P95 column is
present in the record and `baseline_value` is truthy, store
`_calculate_pct_change(baseline_value, record[col])` under the
percentage-change column.  (The membership test only ever concerns P95
keys, so testing against the phase-one fields equals testing against the
growing dict.) -/
def pctEntry (rec : DFields) (bval : Option PyNum) (baseline t : ℚ) : DFields :=
  if t = baseline then []
  else
    match dget? rec (DKey.p95 t), truthyOpt bval with
    | some dv, true => [(DKey.pct baseline t, calculatePctChange bval dv)]
    | _, _ => []

/-- The whole second phase, tenant count by tenant count. -/
def pctFields (rec : DFields) (bval : Option PyNum) (baseline : ℚ) : List ℚ → DFields
  | [] => []
  | t :: ts => pctEntry rec bval baseline t ++ pctFields rec bval baseline ts

/-- One detailed analysis record (one row of
`report_latency_analysis_by_tenants.csv`). -/
structure DetailedRecord where
  operation : String
  category : String
  concurrency : ℚ
  fields : DFields
deriving DecidableEq, Repr

/-- Build the detailed record of one `(operation, concurrency)` pair. -/
def mkDetailedRecord (df : List Row) (tcs : List ℚ) (baseline : ℚ)
    (op : String) (conc : ℚ) : DetailedRecord :=
  let p95col := op ++ "_p95_ms"
  let part1 := p95Fields df p95col conc tcs
  { operation := op, category := getOperationCategory op, concurrency := conc,
    fields := part1 ++ pctFields part1 (baselineVal df p95col conc baseline) baseline tcs }

/-- Evaluates `df.columns` as a set: the union of the key sets of all rows.  (Only
membership is consumed — the operation list is sorted afterwards.) -/
def matrixColumns (df : List Row) : List String :=
  (df.flatMap (fun r => r.map Prod.fst)).dedup

/-- The sorted operation list: every column ending in `_p95_ms`, the
suffix removed by Python `str.replace` (all occurrences).  Python sorts
strings lexicographically by code point, which is the `List Char` order
on the string data. -/
def operationsOf (df : List Row) : List String :=
  List.insertionSort (fun a b : String => a.data ≤ b.data)
    ((matrixColumns df).filterMap
      (fun c => if pyEndsWith c "_p95_ms" then some (pyReplace c "_p95_ms") else none))

/-- The detailed-record loop: operations in sorted order (skipping an
operation whose reconstituted `_p95_ms` column is not an actual column),
concurrency levels in ascending order. -/
def detailedRecords (df : List Row) (tcs : List ℚ) (baseline : ℚ)
    (levels : List ℚ) (ops : List String) : List DetailedRecord :=
  ops.flatMap (fun op =>
    if (matrixColumns df).contains (op ++ "_p95_ms") then
      levels.map (fun conc => mkDetailedRecord df tcs baseline op conc)
    else [])

/-- One category-summary record (one row of
`report_latency_analysis_summary.csv`). -/
structure SummaryRecord where
  category : String
  concurrency : ℚ
  fields : DFields
deriving DecidableEq, Repr

/-- Evaluates `[r[c] for r in conc_records if c in r and r[c] is not None]`: the
values actually populating column `c` among the given records. -/
def populatedVals (recs : List DetailedRecord) (k : DKey) : List PyNum :=
  recs.filterMap (fun r =>
    match dget? r.fields k with
    | some (some p) => some p
    | _ => none)

/-- Averaged P95 columns of a summary row: one per tenant count whose
column is populated by at least one record, holding
`round(np.mean(values), 2)`. -/
def avgP95Entry (recs : List DetailedRecord) (t : ℚ) : DFields :=
  if (populatedVals recs (DKey.p95 t)).isEmpty then []
  else [(DKey.p95 t, some (pyRoundP 2 (pyMean (populatedVals recs (DKey.p95 t)))))]

/-- All averaged P95 columns, tenant count by tenant count. -/
def avgP95Fields (recs : List DetailedRecord) : List ℚ → DFields
  | [] => []
  | t :: ts => avgP95Entry recs t ++ avgP95Fields recs ts

/-- Averaged percentage-change columns of a summary row: one per
non-baseline tenant count whose column is populated by at least one
record, holding `round(np.mean(values), 1)`. -/
def avgPctEntry (recs : List DetailedRecord) (baseline t : ℚ) : DFields :=
  if t = baseline then []
  else if (populatedVals recs (DKey.pct baseline t)).isEmpty then []
  else [(DKey.pct baseline t,
         some (pyRoundP 1 (pyMean (populatedVals recs (DKey.pct baseline t)))))]

/-- All averaged percentage-change columns, tenant count by tenant
count. -/
def avgPctFields (recs : List DetailedRecord) (baseline : ℚ) : List ℚ → DFields
  | [] => []
  | t :: ts => avgPctEntry recs baseline t ++ avgPctFields recs baseline ts

/-- The summary loop: categories in `sorted(set(...))` order, concurrency
levels in ascending order, skipping a `(category, concurrency)` pair with
no records. -/
def summaryRecords (detailed : List DetailedRecord) (tcs : List ℚ)
    (baseline : ℚ) (levels : List ℚ) : List SummaryRecord :=
  (List.insertionSort (fun a b : String => a.data ≤ b.data)
      ((detailed.map (fun r => r.category)).dedup)).flatMap (fun cat =>
    levels.flatMap (fun conc =>
      let recs := (detailed.filter (fun r => r.category == cat)).filter
        (fun r => r.concurrency == conc)
      if recs.isEmpty then []
      else [{ category := cat, concurrency := conc,
              fields := avgP95Fields recs tcs ++ avgPctFields recs baseline tcs }]))

/-- The distinct tenant counts of the matrix, ascending:
`sorted(df['tenants'].unique())`. -/
def tenantCountsOf (df : List Row) : List ℚ :=
  sortedUnique (df.map matrixTenants)

/-- The distinct concurrency levels of the matrix, ascending:
`sorted(df['concurrency'].unique())`. -/
def levelsOf (df : List Row) : List ℚ :=
  sortedUnique (df.map matrixConc)

/-- The baseline tenant count: `min(tenant_counts)`, computed once for the
whole analysis, before any per-concurrency loop. -/
def baselineOf (df : List Row) : ℚ := pyMin (tenantCountsOf df)

/-- The `detailed_records` table of one analysis run. -/
def analysisDetailed (df : List Row) : List DetailedRecord :=
  detailedRecords df (tenantCountsOf df) (baselineOf df) (levelsOf df) (operationsOf df)

/-- The `summary_records` table of one analysis run. -/
def analysisSummary (df : List Row) : List SummaryRecord :=
  summaryRecords (analysisDetailed df) (tenantCountsOf df) (baselineOf df) (levelsOf df)

/-- Source `save_latency_analysis_csv` as a pure function: `none` models the two
logged skip paths (fewer than two distinct tenant counts; no `_p95_ms`
column), `some` carries the two exported tables.  No path raises: the
skips are early returns in the source. -/
def save_latency_analysis_csv (df : List Row) :
    Option (List DetailedRecord × List SummaryRecord) :=
  if (tenantCountsOf df).length < 2 then none
  else if (operationsOf df).isEmpty then none
  else some (analysisDetailed df, analysisSummary df)

/-! ## Helper lemmas: strings, association lists, sorted-unique lists -/

/-- Rewrite derived boolean equality tests to `decide`, so that concrete
instances evaluate. -/
theorem beq_decide {α : Type} [DecidableEq α] (a b : α) : (a == b) = decide (a = b) := rfl

/-- Two strings with the same character data are equal. -/
theorem str_eq_of_data_eq {a b : String} (h : a.data = b.data) : a = b := by
  cases a; cases b; exact congrArg String.mk h

/-- Appending cannot produce a string of which the appended part is not a
suffix. -/
theorem append_ne_of_not_suffix {s t : String}
    (h : decide (s.data <:+ t.data) = false) (a : String) : a ++ s ≠ t := by
  intro he
  have hd : a.data ++ s.data = t.data := by
    have := congrArg String.data he
    rwa [String.data_append] at this
  have : s.data <:+ t.data := hd ▸ List.suffix_append a.data s.data
  simp [this] at h

/-- Two appended strings with incomparable suffixes are distinct, whatever
the stems. -/
theorem append_ne_append {s t : String}
    (h1 : decide (s.data <:+ t.data) = false)
    (h2 : decide (t.data <:+ s.data) = false) (a b : String) :
    a ++ s ≠ b ++ t := by
  intro he
  have hd : a.data ++ s.data = b.data ++ t.data := by
    have := congrArg String.data he
    rwa [String.data_append, String.data_append] at this
  have hs : s.data.reverse ++ a.data.reverse = t.data.reverse ++ b.data.reverse := by
    have := congrArg List.reverse hd
    simpa [List.reverse_append] using this
  have hps : s.data.reverse <+: t.data.reverse ++ b.data.reverse :=
    hs ▸ List.prefix_append s.data.reverse a.data.reverse
  have hpt : t.data.reverse <+: t.data.reverse ++ b.data.reverse :=
    List.prefix_append t.data.reverse b.data.reverse
  rcases List.prefix_or_prefix_of_prefix hps hpt with hc | hc
  · have : s.data <:+ t.data := List.reverse_prefix.mp hc
    simp [this] at h1
  · have : t.data <:+ s.data := List.reverse_prefix.mp hc
    simp [this] at h2

/-- Right cancellation for string append. -/
theorem str_append_right_cancel {a b s : String} (h : a ++ s = b ++ s) : a = b := by
  apply str_eq_of_data_eq
  have hd : a.data ++ s.data = b.data ++ s.data := by
    have := congrArg String.data h
    rwa [String.data_append, String.data_append] at this
  exact List.append_cancel_right hd

/-- Reading back the key just assigned. -/
theorem getField?_setField_self (r : Row) (k : String) (v : ℚ) :
    getField? (setField r k v) k = some v := by
  induction r with
  | nil => simp [setField, getField?]
  | cons p rest ih =>
    by_cases h : p.1 = k
    · simp [setField, h, getField?]
    · have hbeq : (p.1 == k) = false := by simp [beq_decide, h]
      simp only [setField, if_neg h, getField?, List.find?, hbeq]
      exact ih

/-- Assignment to one key leaves every other key unchanged. -/
theorem getField?_setField_ne (r : Row) (k k' : String) (v : ℚ) (h : k' ≠ k) :
    getField? (setField r k' v) k = getField? r k := by
  induction r with
  | nil => simp [setField, getField?, List.find?, beq_decide, h]
  | cons p rest ih =>
    by_cases hp : p.1 = k'
    · simp only [setField, if_pos hp, getField?, List.find?, beq_decide]
      simp [h, hp]
    · simp only [setField, if_neg hp, getField?, List.find?]
      cases hpk : (p.1 == k) with
      | true => rfl
      | false => exact ih

/-- A run of assignments touching none of the keys equal to `k` leaves `k`
unchanged. -/
theorem getField?_setFields_not_mem (kvs : List (String × ℚ)) (r : Row) (k : String)
    (h : ∀ kv ∈ kvs, kv.1 ≠ k) :
    getField? (setFields r kvs) k = getField? r k := by
  induction kvs generalizing r with
  | nil => rfl
  | cons kv rest ih =>
    have hstep : setFields r (kv :: rest) = setFields (setField r kv.1 kv.2) rest := rfl
    rw [hstep, ih _ (fun x hx => h x (List.mem_cons_of_mem kv hx)),
      getField?_setField_ne _ _ _ _ (h kv (List.mem_cons_self kv rest))]

/-- After a run of assignments that all write the same value to key `k`,
the key holds that value if at least one assignment touched it, and is
unchanged otherwise. -/
theorem getField?_setFields_agree (kvs : List (String × ℚ)) (r : Row) (k : String) (v : ℚ)
    (h : ∀ kv ∈ kvs, kv.1 = k → kv.2 = v) :
    getField? (setFields r kvs) k = some v ∨
      getField? (setFields r kvs) k = getField? r k := by
  induction kvs generalizing r with
  | nil => exact Or.inr rfl
  | cons kv rest ih =>
    have hstep : setFields r (kv :: rest) = setFields (setField r kv.1 kv.2) rest := rfl
    rw [hstep]
    by_cases hk : kv.1 = k
    · rcases ih (setField r kv.1 kv.2) (fun x hx => h x (List.mem_cons_of_mem kv hx)) with
        hc | hc
      · exact Or.inl hc
      · rw [hc, hk, getField?_setField_self]
        exact Or.inl (by rw [h kv (List.mem_cons_self kv rest) hk])
    · rcases ih (setField r kv.1 kv.2) (fun x hx => h x (List.mem_cons_of_mem kv hx)) with
        hc | hc
      · exact Or.inl hc
      · rw [hc, getField?_setField_ne _ _ _ _ hk]
        exact Or.inr rfl

/-- After a run of assignments that all write the same value to key `k`,
of which at least one touches it, the key holds that value. -/
theorem getField?_setFields_of_mem (kvs : List (String × ℚ)) (r : Row) (k : String) (v : ℚ)
    (h : ∀ kv ∈ kvs, kv.1 = k → kv.2 = v) (hex : ∃ kv ∈ kvs, kv.1 = k) :
    getField? (setFields r kvs) k = some v := by
  induction kvs generalizing r with
  | nil => simp at hex
  | cons kv rest ih =>
    have hstep : setFields r (kv :: rest) = setFields (setField r kv.1 kv.2) rest := rfl
    rw [hstep]
    by_cases hk : kv.1 = k
    · rcases getField?_setFields_agree rest (setField r kv.1 kv.2) k v
        (fun x hx => h x (List.mem_cons_of_mem kv hx)) with hc | hc
      · exact hc
      · rw [hc, hk, getField?_setField_self]
        rw [h kv (List.mem_cons_self kv rest) hk]
    · rcases hex with ⟨kv', hkv', hk'⟩
      rcases List.mem_cons.mp hkv' with he | hm
      · exact absurd (he ▸ hk') hk
      · exact ih (setField r kv.1 kv.2) (fun x hx => h x (List.mem_cons_of_mem kv hx))
          ⟨kv', hm, hk'⟩

/-- Membership in `sortedUnique` is membership in the original list. -/
theorem mem_sortedUnique {x : ℚ} {l : List ℚ} : x ∈ sortedUnique l ↔ x ∈ l := by
  unfold sortedUnique
  rw [List.mem_insertionSort, List.mem_dedup]

/-- The distinct-value list has no duplicates. -/
theorem nodup_sortedUnique (l : List ℚ) : (sortedUnique l).Nodup :=
  ((List.perm_insertionSort _ _).nodup_iff).mpr (List.nodup_dedup l)

/-- A left fold by `min` is bounded by its initial value. -/
theorem foldl_min_le_init (t : List ℚ) (a : ℚ) : t.foldl min a ≤ a := by
  induction t generalizing a with
  | nil => exact le_refl a
  | cons x xs ih => exact le_trans (ih (min a x)) (min_le_left a x)

/-- A left fold by `min` is bounded by every list element. -/
theorem foldl_min_le_mem (t : List ℚ) (a : ℚ) : ∀ x ∈ t, t.foldl min a ≤ x := by
  induction t generalizing a with
  | nil => intro x hx; simp at hx
  | cons y ys ih =>
    intro x hx
    rcases List.mem_cons.mp hx with he | hm
    · subst he
      exact le_trans (foldl_min_le_init ys (min a x)) (min_le_right a x)
    · exact ih (min a y) x hm

/-- A left fold by `min` yields the initial value or a list element. -/
theorem foldl_min_mem (t : List ℚ) (a : ℚ) : t.foldl min a = a ∨ t.foldl min a ∈ t := by
  induction t generalizing a with
  | nil => exact Or.inl rfl
  | cons y ys ih =>
    rcases ih (min a y) with hc | hc
    · rcases min_choice a y with hm | hm
      · exact Or.inl (by rw [List.foldl_cons, hc, hm])
      · exact Or.inr (by rw [List.foldl_cons, hc, hm]; exact List.mem_cons_self y ys)
    · exact Or.inr (List.mem_cons_of_mem y hc)

/-- Python `min` bounds every element of the list. -/
theorem pyMin_le (l : List ℚ) (x : ℚ) (hx : x ∈ l) : pyMin l ≤ x := by
  cases l with
  | nil => simp at hx
  | cons h t =>
    rcases List.mem_cons.mp hx with he | hm
    · subst he
      exact foldl_min_le_init t x
    · exact foldl_min_le_mem t h x hm

/-- Python `min` of a nonempty list is an element of it. -/
theorem pyMin_mem (l : List ℚ) (h : l ≠ []) : pyMin l ∈ l := by
  cases l with
  | nil => exact absurd rfl h
  | cons a t =>
    show t.foldl min a ∈ a :: t
    rcases foldl_min_mem t a with hc | hc
    · rw [hc]; exact List.mem_cons_self a t
    · exact List.mem_cons_of_mem a hc

/-- Dict lookup distributes over list append, first list first. -/
theorem dget?_append (l1 l2 : DFields) (k : DKey) :
    dget? (l1 ++ l2) k = (dget? l1 k).or (dget? l2 k) := by
  unfold dget?
  rw [List.find?_append]
  cases List.find? (fun p => p.1 == k) l1 with
  | none => simp [Option.or]
  | some p => simp [Option.or]

/-- Lookup in a singleton with the matching key. -/
theorem dget?_single_self (k : DKey) (v : DVal) : dget? [(k, v)] k = some v := by
  simp [dget?, List.find?, beq_decide]

/-- Lookup in a singleton with a different key. -/
theorem dget?_single_ne (k k' : DKey) (v : DVal) (h : k' ≠ k) : dget? [(k', v)] k = none := by
  simp [dget?, List.find?, beq_decide, h]

/-! ## Claim C10 — loader returns the no-data signal -/

/-- C10: when every file offered to the Metrics Table Loader fails to
parse as tabular data — in particular when there are no files at all —
`load_metrics_csv_files` returns `None` (the explicit no-data signal),
never an empty table. -/
theorem loader_none_when_nothing_parses (files : List MetricsFile)
    (h : ∀ f ∈ files, f.table? = none) :
    load_metrics_csv_files files = none := by
  unfold load_metrics_csv_files
  by_cases h1 : files.isEmpty
  · simp [h1]
  · have hp : files.filterMap
        (fun f => f.table?.map (fun t => (metricsTag f.filename, t))) = [] := by
      rw [List.filterMap_eq_nil_iff]
      intro f hf
      rw [h f hf]
      rfl
    simp [h1, hp]

/-- Witness for C10 at a concrete single unparsable file. -/
theorem loader_none_when_nothing_parses_witness :
    (∀ f ∈ [MetricsFile.mk "metrics_a.csv" none], f.table? = none) ∧
    load_metrics_csv_files [MetricsFile.mk "metrics_a.csv" none] = none :=
  ⟨by decide, loader_none_when_nothing_parses _ (by decide)⟩

/-! ## Claim C2 — experiment tag parsing in the loader -/

/-- C2: every row of the loaded metrics table carries exactly the
`(tenants, concurrency)` pair parsed from its experiment tag by the
pattern `(\d+)_concurrency_(\d+)`; the filename
`metrics_5_concurrency_20.csv` yields tag `5_concurrency_20` and the pair
`(5, 20)`, `metrics_nightly.csv` yields tag `nightly` and `(None, None)`;
rows with an unparsable tag have both fields undefined (never zero), so
they drop out of `(tenants, concurrency)`-indexed grouping while staying
in component-indexed filtering. -/
theorem loader_axis_fields_follow_parse (files : List MetricsFile) (rows : List MetricRow)
    (h : load_metrics_csv_files files = some rows) :
    (∀ r ∈ rows, r.tenants? = (parse_experiment r.experiment).1 ∧
        r.concurrency? = (parse_experiment r.experiment).2) ∧
    (∀ r ∈ rows, parse_experiment r.experiment = (none, none) →
        r.tenants? = none ∧ r.concurrency? = none ∧
        r ∉ pivotRows rows ∧ r ∈ componentRows rows r.component) ∧
    metricsTag "metrics_5_concurrency_20.csv" = "5_concurrency_20" ∧
    parse_experiment "5_concurrency_20" = (some 5, some 20) ∧
    metricsTag "metrics_nightly.csv" = "nightly" ∧
    parse_experiment "nightly" = (none, none) := by
  have hparse : ∀ r ∈ rows, r.tenants? = (parse_experiment r.experiment).1 ∧
      r.concurrency? = (parse_experiment r.experiment).2 := by
    intro r hr
    by_cases h1 : files.isEmpty
    · simp [load_metrics_csv_files, h1] at h
    · by_cases h2 : (files.filterMap
          (fun f => Option.map (fun t => (metricsTag f.filename, t)) f.table?)).isEmpty
      · simp [load_metrics_csv_files, h1, h2] at h
      · have hrows : (files.filterMap
            (fun f => Option.map (fun t => (metricsTag f.filename, t)) f.table?)).flatMap
              (fun p => tagRows p.1 p.2) = rows := by
          simpa [load_metrics_csv_files, h1, h2] using h
        rw [← hrows] at hr
        rcases List.mem_flatMap.mp hr with ⟨p, _, hrp⟩
        rcases List.mem_map.mp hrp with ⟨cr, _, hre⟩
        rw [← hre]
        exact ⟨rfl, rfl⟩
  refine ⟨hparse, ?_, by decide, by decide, by decide, by decide⟩
  intro r hr hnone
  have h1 : r.tenants? = none := by rw [(hparse r hr).1, hnone]
  have h2 : r.concurrency? = none := by rw [(hparse r hr).2, hnone]
  refine ⟨h1, h2, ?_, ?_⟩
  · intro hmem
    have := (List.mem_filter.mp hmem).2
    rw [h1] at this
    simp at this
  · exact List.mem_filter.mpr ⟨hr, by simp [beq_decide]⟩

/-- Two concrete files for the loader: one whose filename encodes the
experiment axes, one (a nightly run) whose tag does not parse. -/
def exFilesC2 : List MetricsFile :=
  [⟨"metrics_5_concurrency_20.csv", some [⟨"mlflow", "cpu", "avg", "cores", "2.5"⟩]⟩,
   ⟨"metrics_nightly.csv", some [⟨"mlflow", "cpu", "avg", "cores", "1.5"⟩]⟩]

/-- The loaded table of `exFilesC2`. -/
def exRowsC2 : List MetricRow := (load_metrics_csv_files exFilesC2).getD []

/-- Witness for C2 at the two concrete files. -/
theorem loader_axis_fields_follow_parse_witness :
    load_metrics_csv_files exFilesC2 = some exRowsC2 ∧
    ((∀ r ∈ exRowsC2, r.tenants? = (parse_experiment r.experiment).1 ∧
        r.concurrency? = (parse_experiment r.experiment).2) ∧
     (∀ r ∈ exRowsC2, parse_experiment r.experiment = (none, none) →
        r.tenants? = none ∧ r.concurrency? = none ∧
        r ∉ pivotRows exRowsC2 ∧ r ∈ componentRows exRowsC2 r.component) ∧
     metricsTag "metrics_5_concurrency_20.csv" = "5_concurrency_20" ∧
     parse_experiment "5_concurrency_20" = (some 5, some 20) ∧
     metricsTag "metrics_nightly.csv" = "nightly" ∧
     parse_experiment "nightly" = (none, none)) :=
  ⟨by decide, loader_axis_fields_follow_parse exFilesC2 exRowsC2 (by decide)⟩

/-! ## Claim C7 — extractor degrades gracefully without `data.metrics` -/

/-- C7: a document lacking the `data.metrics` sub-mapping (including one
lacking `data` entirely) never makes the Record Extractor raise: the
result is exactly the two identity fields, each copied from the document
root, defaulting to 0 when absent.  (The embedding is a total function:
the source reaches this result through `dict.get` defaults alone, with no
raising path.) -/
theorem extractor_survives_missing_metrics (s : RunSummary)
    (h : s.data? = none ∨ ∃ d, s.data? = some d ∧ d.metrics? = none) :
    extract_metrics s =
      [("tenants", s.tenants?.getD 0), ("concurrency", s.concurrency?.getD 0)] := by
  have hm : metricsOf s = [] := by
    rcases h with h | ⟨d, hd, hmet⟩
    · simp [metricsOf, h]
    · simp [metricsOf, hd, hmet]
  simp [extract_metrics, extractRow2, extractRow1, extractRow0, hm, lookupMetric, setFields]

/-- Witness for C7: a document with root `tenants` 3, no `concurrency`,
no `data`. -/
theorem extractor_survives_missing_metrics_witness :
    extract_metrics ⟨some 3, none, none⟩ = [("tenants", 3), ("concurrency", 0)] :=
  extractor_survives_missing_metrics ⟨some 3, none, none⟩ (Or.inl rfl)

/-! ## Claim C6 — `http_req_failed` fields use `rate` and `passes` -/

/-- C6: when the metrics mapping has an `http_req_failed` entry, the
extractor emits `http_req_failed_rate` from its `rate` value and
`http_req_failed_count` from its `passes` value (not `count`), each
defaulting to 0 when the source key is missing (`vget` is
`values.get(k, 0)`). -/
theorem extractor_http_req_failed_fields (s : RunSummary) (m : Metric)
    (h : lookupMetric (metricsOf s) "http_req_failed" = some m) :
    getField? (extract_metrics s) "http_req_failed_rate" = some (vget m.values "rate") ∧
    getField? (extract_metrics s) "http_req_failed_count" = some (vget m.values "passes") := by
  unfold extract_metrics
  rw [h]
  constructor
  · show getField? (setField (setField (extractRow2 s) "http_req_failed_rate"
      (vget m.values "rate")) "http_req_failed_count" (vget m.values "passes"))
      "http_req_failed_rate" = some (vget m.values "rate")
    rw [getField?_setField_ne _ _ _ _ (by decide), getField?_setField_self]
  · show getField? (setField (setField (extractRow2 s) "http_req_failed_rate"
      (vget m.values "rate")) "http_req_failed_count" (vget m.values "passes"))
      "http_req_failed_count" = some (vget m.values "passes")
    rw [getField?_setField_self]

/-- Concrete metric for the C6 witness: `passes` and `count` deliberately
differ, so the emitted count demonstrably comes from `passes`. -/
def exM6 : Metric := ⟨some "rate", [("rate", 2), ("passes", 3), ("count", 99)]⟩

/-- Concrete summary holding `exM6` under the name `http_req_failed`. -/
def exS6 : RunSummary := ⟨some 1, some 10, some ⟨some [("http_req_failed", exM6)]⟩⟩

/-- Witness for C6: the emitted count is 3 (the `passes` value), although
`count` is 99. -/
theorem extractor_http_req_failed_fields_witness :
    getField? (extract_metrics exS6) "http_req_failed_rate" = some 2 ∧
    getField? (extract_metrics exS6) "http_req_failed_count" = some 3 ∧
    vget exM6.values "count" = 99 := by
  have h := extractor_http_req_failed_fields exS6 exM6 (by decide)
  refine ⟨?_, ?_, by decide⟩
  · rw [h.1]; decide
  · rw [h.2]; decide

/-! ## Claim C3 — the matrix is sorted stably by (tenants, concurrency) -/

/-- When the insertion comparison fails, the two rows have distinct sort
keys (the comparison is reflexive on equal keys). -/
theorem rowKey_ne_of_not_rowLE {x y : Row} (h : ¬ rowLE x y) : rowKey y ≠ rowKey x := by
  intro he
  exact h (Or.inr ⟨congrArg Prod.fst he.symm, le_of_eq (congrArg Prod.snd he.symm)⟩)

/-- Inserting a row of key `k` into a list prefixes it to the key-`k`
sublist: the skipped rows all have different keys. -/
theorem filter_orderedInsert_key_eq (k : ℚ × ℚ) (x : Row) (l : List Row)
    (hx : rowKey x = k) :
    (List.orderedInsert rowLE x l).filter (fun r => decide (rowKey r = k)) =
      x :: l.filter (fun r => decide (rowKey r = k)) := by
  induction l with
  | nil => simp [List.orderedInsert, hx]
  | cons y ys ih =>
    by_cases h : rowLE x y
    · simp [List.orderedInsert, if_pos h, hx]
    · have hne : rowKey y ≠ k := by
        rw [← hx]
        exact rowKey_ne_of_not_rowLE h
      simp only [List.orderedInsert, if_neg h, List.filter_cons, hne, decide_eq_true_eq,
        if_neg hne]
      rw [ih]
      simp [hne]

/-- Inserting a row of a different key leaves the key-`k` sublist
untouched. -/
theorem filter_orderedInsert_key_ne (k : ℚ × ℚ) (x : Row) (l : List Row)
    (hx : rowKey x ≠ k) :
    (List.orderedInsert rowLE x l).filter (fun r => decide (rowKey r = k)) =
      l.filter (fun r => decide (rowKey r = k)) := by
  induction l with
  | nil => simp [List.orderedInsert, hx]
  | cons y ys ih =>
    by_cases h : rowLE x y
    · simp [List.orderedInsert, if_pos h, hx]
    · simp only [List.orderedInsert, if_neg h, List.filter_cons]
      rw [ih]

/-- Insertion sort preserves each equal-key sublist: stability. -/
theorem filter_insertionSort_key (k : ℚ × ℚ) (l : List Row) :
    (List.insertionSort rowLE l).filter (fun r => decide (rowKey r = k)) =
      l.filter (fun r => decide (rowKey r = k)) := by
  induction l with
  | nil => rfl
  | cons a l ih =>
    show (List.orderedInsert rowLE a (List.insertionSort rowLE l)).filter _ = _
    by_cases ha : rowKey a = k
    · rw [filter_orderedInsert_key_eq k a _ ha, ih]
      simp [List.filter_cons, ha]
    · rw [filter_orderedInsert_key_ne k a _ ha, ih]
      simp [List.filter_cons, ha]

/-- C3: the Experiment Matrix Builder (i) emits the extracted rows in a
(tenants, concurrency)-lexicographically ascending order, tenants primary,
(ii) as a permutation of its input, and (iii) stably: for every key the
rows carrying that key appear exactly as in the input, so ties preserve
input order. -/
theorem create_dataframe_sorted_stable (summaries : List RunSummary) :
    List.Sorted rowLE (create_dataframe summaries) ∧
    List.Perm (create_dataframe summaries) (summaries.map extract_metrics) ∧
    ∀ k : ℚ × ℚ,
      (create_dataframe summaries).filter (fun r => decide (rowKey r = k)) =
        (summaries.map extract_metrics).filter (fun r => decide (rowKey r = k)) :=
  ⟨List.sorted_insertionSort rowLE _,
   List.perm_insertionSort rowLE _,
   fun k => filter_insertionSort_key k _⟩


/-! ## Characterizing the fields of detailed and summary records -/

/-- The phase-one entry of tenant count `t` at its own key. -/
theorem dget?_p95Entry_self (df : List Row) (col : String) (conc t : ℚ) :
    dget? (p95Entry df col conc t) (DKey.p95 t) =
      (findRow df t conc).map (fun r => some (pyRoundP 2 (cellOf r col))) := by
  unfold p95Entry
  cases hf : findRow df t conc with
  | some r => exact dget?_single_self _ _
  | none => rfl

/-- The phase-one entry of tenant count `t` holds no other P95 key. -/
theorem dget?_p95Entry_ne (df : List Row) (col : String) (conc t u : ℚ) (h : t ≠ u) :
    dget? (p95Entry df col conc t) (DKey.p95 u) = none := by
  unfold p95Entry
  cases hf : findRow df t conc with
  | some r => exact dget?_single_ne _ _ _ (by simp [h])
  | none => rfl

/-- The phase-one entry holds no percentage-change key. -/
theorem dget?_p95Entry_pct (df : List Row) (col : String) (conc t b u : ℚ) :
    dget? (p95Entry df col conc t) (DKey.pct b u) = none := by
  unfold p95Entry
  cases hf : findRow df t conc with
  | some r => exact dget?_single_ne _ _ _ (by simp)
  | none => rfl

/-- The phase-two entry of a non-baseline tenant count at its own key. -/
theorem dget?_pctEntry_self (rec : DFields) (bval : Option PyNum) (baseline t : ℚ)
    (hne : t ≠ baseline) :
    dget? (pctEntry rec bval baseline t) (DKey.pct baseline t) =
      (match dget? rec (DKey.p95 t), truthyOpt bval with
       | some dv, true => some (calculatePctChange bval dv)
       | _, _ => none) := by
  unfold pctEntry
  rw [if_neg hne]
  cases hd : dget? rec (DKey.p95 t) with
  | some dv =>
    cases htr : truthyOpt bval with
    | true => exact dget?_single_self _ _
    | false => rfl
  | none =>
    cases htr : truthyOpt bval with
    | true => rfl
    | false => rfl

/-- The phase-two entry of tenant count `t` holds no other pct key. -/
theorem dget?_pctEntry_ne (rec : DFields) (bval : Option PyNum) (baseline t b u : ℚ)
    (h : b ≠ baseline ∨ t ≠ u) :
    dget? (pctEntry rec bval baseline t) (DKey.pct b u) = none := by
  have hkey : DKey.pct baseline t ≠ DKey.pct b u := by
    intro he
    rw [DKey.pct.injEq] at he
    rcases h with h | h
    · exact h he.1.symm
    · exact h he.2
  unfold pctEntry
  by_cases hb : t = baseline
  · rw [if_pos hb]; rfl
  · rw [if_neg hb]
    cases hd : dget? rec (DKey.p95 t) with
    | some dv =>
      cases htr : truthyOpt bval with
      | true => exact dget?_single_ne _ _ _ hkey
      | false => rfl
    | none =>
      cases htr : truthyOpt bval with
      | true => rfl
      | false => rfl

/-- The phase-two entry holds no P95 key. -/
theorem dget?_pctEntry_p95 (rec : DFields) (bval : Option PyNum) (baseline t u : ℚ) :
    dget? (pctEntry rec bval baseline t) (DKey.p95 u) = none := by
  unfold pctEntry
  by_cases hb : t = baseline
  · rw [if_pos hb]; rfl
  · rw [if_neg hb]
    cases hd : dget? rec (DKey.p95 t) with
    | some dv =>
      cases htr : truthyOpt bval with
      | true => exact dget?_single_ne _ _ _ (by simp)
      | false => rfl
    | none =>
      cases htr : truthyOpt bval with
      | true => rfl
      | false => rfl

/-- The phase-one fields contain no percentage-change keys. -/
theorem dget?_p95Fields_pct (df : List Row) (col : String) (conc : ℚ)
    (tcs : List ℚ) (b t : ℚ) :
    dget? (p95Fields df col conc tcs) (DKey.pct b t) = none := by
  induction tcs with
  | nil => rfl
  | cons t' ts ih =>
    show dget? (p95Entry df col conc t' ++ p95Fields df col conc ts) (DKey.pct b t) = none
    rw [dget?_append, dget?_p95Entry_pct, ih]
    rfl

/-- A tenant count outside the iterated list has no phase-one field. -/
theorem dget?_p95Fields_not_mem (df : List Row) (col : String) (conc : ℚ)
    (tcs : List ℚ) (t : ℚ) (ht : t ∉ tcs) :
    dget? (p95Fields df col conc tcs) (DKey.p95 t) = none := by
  induction tcs with
  | nil => rfl
  | cons t' ts ih =>
    have hne : t' ≠ t := fun he => ht (he ▸ List.mem_cons_self t' ts)
    have hts : t ∉ ts := fun hm => ht (List.mem_cons_of_mem t' hm)
    show dget? (p95Entry df col conc t' ++ p95Fields df col conc ts) (DKey.p95 t) = none
    rw [dget?_append, dget?_p95Entry_ne df col conc t' t hne, ih hts]
    rfl

/-- The phase-one field of an iterated tenant count: the rounded P95 cell
of the matching row, absent when no row matches. -/
theorem dget?_p95Fields_mem (df : List Row) (col : String) (conc : ℚ)
    (tcs : List ℚ) (t : ℚ) (ht : t ∈ tcs) :
    dget? (p95Fields df col conc tcs) (DKey.p95 t) =
      (findRow df t conc).map (fun r => some (pyRoundP 2 (cellOf r col))) := by
  induction tcs with
  | nil => simp at ht
  | cons t' ts ih =>
    show dget? (p95Entry df col conc t' ++ p95Fields df col conc ts) (DKey.p95 t) = _
    rw [dget?_append]
    by_cases he : t' = t
    · subst he
      rw [dget?_p95Entry_self]
      cases hf : findRow df t' conc with
      | some r => rfl
      | none =>
        by_cases hm : t' ∈ ts
        · rw [ih hm, hf]; rfl
        · rw [dget?_p95Fields_not_mem df col conc ts t' hm]; rfl
    · have hm : t ∈ ts := by
        rcases List.mem_cons.mp ht with h | h
        · exact absurd h.symm he
        · exact h
      rw [dget?_p95Entry_ne df col conc t' t he, ih hm]
      rfl

/-- The phase-two fields contain no P95 keys. -/
theorem dget?_pctFields_p95 (rec : DFields) (bval : Option PyNum) (baseline : ℚ)
    (tcs : List ℚ) (t : ℚ) :
    dget? (pctFields rec bval baseline tcs) (DKey.p95 t) = none := by
  induction tcs with
  | nil => rfl
  | cons t' ts ih =>
    show dget? (pctEntry rec bval baseline t' ++ pctFields rec bval baseline ts)
      (DKey.p95 t) = none
    rw [dget?_append, dget?_pctEntry_p95, ih]
    rfl

/-- The phase-two fields only carry the analysis baseline in their keys. -/
theorem dget?_pctFields_ne_baseline (rec : DFields) (bval : Option PyNum) (baseline : ℚ)
    (tcs : List ℚ) (b t : ℚ) (hb : b ≠ baseline) :
    dget? (pctFields rec bval baseline tcs) (DKey.pct b t) = none := by
  induction tcs with
  | nil => rfl
  | cons t' ts ih =>
    show dget? (pctEntry rec bval baseline t' ++ pctFields rec bval baseline ts)
      (DKey.pct b t) = none
    rw [dget?_append, dget?_pctEntry_ne rec bval baseline t' b t (Or.inl hb), ih]
    rfl

/-- A tenant count outside the iterated list has no phase-two field. -/
theorem dget?_pctFields_not_mem (rec : DFields) (bval : Option PyNum) (baseline : ℚ)
    (tcs : List ℚ) (t : ℚ) (ht : t ∉ tcs) :
    dget? (pctFields rec bval baseline tcs) (DKey.pct baseline t) = none := by
  induction tcs with
  | nil => rfl
  | cons t' ts ih =>
    have hne : t' ≠ t := fun he => ht (he ▸ List.mem_cons_self t' ts)
    have hts : t ∉ ts := fun hm => ht (List.mem_cons_of_mem t' hm)
    show dget? (pctEntry rec bval baseline t' ++ pctFields rec bval baseline ts)
      (DKey.pct baseline t) = none
    rw [dget?_append, dget?_pctEntry_ne rec bval baseline t' baseline t (Or.inr hne),
      ih hts]
    rfl

/-- The phase-two field of an iterated non-baseline tenant count: present
exactly when its P95 column is in the record and `baseline_value` is
truthy, and then holding `_calculate_pct_change(baseline_value, v)`. -/
theorem dget?_pctFields_mem (rec : DFields) (bval : Option PyNum) (baseline : ℚ)
    (tcs : List ℚ) (t : ℚ) (ht : t ∈ tcs) (hne : t ≠ baseline) :
    dget? (pctFields rec bval baseline tcs) (DKey.pct baseline t) =
      (match dget? rec (DKey.p95 t), truthyOpt bval with
       | some dv, true => some (calculatePctChange bval dv)
       | _, _ => none) := by
  induction tcs with
  | nil => simp at ht
  | cons t' ts ih =>
    show dget? (pctEntry rec bval baseline t' ++ pctFields rec bval baseline ts)
      (DKey.pct baseline t) = _
    rw [dget?_append]
    by_cases he : t' = t
    · subst he
      rw [dget?_pctEntry_self rec bval baseline t' hne]
      have htail : dget? (pctFields rec bval baseline ts) (DKey.pct baseline t') = none ∨
          dget? (pctFields rec bval baseline ts) (DKey.pct baseline t') =
            (match dget? rec (DKey.p95 t'), truthyOpt bval with
             | some dv, true => some (calculatePctChange bval dv)
             | _, _ => none) := by
        by_cases hm : t' ∈ ts
        · exact Or.inr (ih hm)
        · exact Or.inl (dget?_pctFields_not_mem rec bval baseline ts t' hm)
      cases hd : dget? rec (DKey.p95 t') with
      | some dv =>
        cases htr : truthyOpt bval with
        | true => rfl
        | false =>
          rcases htail with h | h
          · rw [h]; rfl
          · rw [h, hd, htr]; rfl
      | none =>
        rcases htail with h | h
        · rw [h]; rfl
        · rw [h, hd]; rfl
    · have hm : t ∈ ts := by
        rcases List.mem_cons.mp ht with h | h
        · exact absurd h.symm he
        · exact h
      rw [dget?_pctEntry_ne rec bval baseline t' baseline t (Or.inr he), ih hm]
      rfl

/-- The averaged-P95 entry of tenant count `t` at its own key. -/
theorem dget?_avgP95Entry_self (recs : List DetailedRecord) (t : ℚ) :
    dget? (avgP95Entry recs t) (DKey.p95 t) =
      (if (populatedVals recs (DKey.p95 t)).isEmpty then none
       else some (some (pyRoundP 2 (pyMean (populatedVals recs (DKey.p95 t)))))) := by
  unfold avgP95Entry
  by_cases hv : (populatedVals recs (DKey.p95 t)).isEmpty
  · rw [if_pos hv, if_pos hv]; rfl
  · rw [if_neg hv, if_neg hv, dget?_single_self]

/-- The averaged-P95 entry holds no other P95 key. -/
theorem dget?_avgP95Entry_ne (recs : List DetailedRecord) (t u : ℚ) (h : t ≠ u) :
    dget? (avgP95Entry recs t) (DKey.p95 u) = none := by
  unfold avgP95Entry
  by_cases hv : (populatedVals recs (DKey.p95 t)).isEmpty
  · rw [if_pos hv]; rfl
  · rw [if_neg hv]
    exact dget?_single_ne _ _ _ (by simp [h])

/-- The averaged-P95 entry holds no percentage-change key. -/
theorem dget?_avgP95Entry_pct (recs : List DetailedRecord) (t b u : ℚ) :
    dget? (avgP95Entry recs t) (DKey.pct b u) = none := by
  unfold avgP95Entry
  by_cases hv : (populatedVals recs (DKey.p95 t)).isEmpty
  · rw [if_pos hv]; rfl
  · rw [if_neg hv]
    exact dget?_single_ne _ _ _ (by simp)

/-- The averaged-pct entry of a non-baseline tenant count at its own key. -/
theorem dget?_avgPctEntry_self (recs : List DetailedRecord) (baseline t : ℚ)
    (hne : t ≠ baseline) :
    dget? (avgPctEntry recs baseline t) (DKey.pct baseline t) =
      (if (populatedVals recs (DKey.pct baseline t)).isEmpty then none
       else some (some (pyRoundP 1 (pyMean (populatedVals recs (DKey.pct baseline t)))))) := by
  unfold avgPctEntry
  rw [if_neg hne]
  by_cases hv : (populatedVals recs (DKey.pct baseline t)).isEmpty
  · rw [if_pos hv, if_pos hv]; rfl
  · rw [if_neg hv, if_neg hv, dget?_single_self]

/-- The averaged-pct entry holds no other pct key. -/
theorem dget?_avgPctEntry_ne (recs : List DetailedRecord) (baseline t b u : ℚ)
    (h : b ≠ baseline ∨ t ≠ u) :
    dget? (avgPctEntry recs baseline t) (DKey.pct b u) = none := by
  have hkey : DKey.pct baseline t ≠ DKey.pct b u := by
    intro he
    rw [DKey.pct.injEq] at he
    rcases h with h | h
    · exact h he.1.symm
    · exact h he.2
  unfold avgPctEntry
  by_cases hb : t = baseline
  · rw [if_pos hb]; rfl
  · rw [if_neg hb]
    by_cases hv : (populatedVals recs (DKey.pct baseline t)).isEmpty
    · rw [if_pos hv]; rfl
    · rw [if_neg hv]
      exact dget?_single_ne _ _ _ hkey

/-- The averaged-pct entry holds no P95 key. -/
theorem dget?_avgPctEntry_p95 (recs : List DetailedRecord) (baseline t u : ℚ) :
    dget? (avgPctEntry recs baseline t) (DKey.p95 u) = none := by
  unfold avgPctEntry
  by_cases hb : t = baseline
  · rw [if_pos hb]; rfl
  · rw [if_neg hb]
    by_cases hv : (populatedVals recs (DKey.pct baseline t)).isEmpty
    · rw [if_pos hv]; rfl
    · rw [if_neg hv]
      exact dget?_single_ne _ _ _ (by simp)

/-- Averaged P95 columns contain no pct keys. -/
theorem dget?_avgP95Fields_pct (recs : List DetailedRecord) (tcs : List ℚ) (b t : ℚ) :
    dget? (avgP95Fields recs tcs) (DKey.pct b t) = none := by
  induction tcs with
  | nil => rfl
  | cons t' ts ih =>
    show dget? (avgP95Entry recs t' ++ avgP95Fields recs ts) (DKey.pct b t) = none
    rw [dget?_append, dget?_avgP95Entry_pct, ih]
    rfl

/-- A tenant count outside the iterated list has no averaged P95
column. -/
theorem dget?_avgP95Fields_not_mem (recs : List DetailedRecord) (tcs : List ℚ) (t : ℚ)
    (ht : t ∉ tcs) :
    dget? (avgP95Fields recs tcs) (DKey.p95 t) = none := by
  induction tcs with
  | nil => rfl
  | cons t' ts ih =>
    have hne : t' ≠ t := fun he => ht (he ▸ List.mem_cons_self t' ts)
    have hts : t ∉ ts := fun hm => ht (List.mem_cons_of_mem t' hm)
    show dget? (avgP95Entry recs t' ++ avgP95Fields recs ts) (DKey.p95 t) = none
    rw [dget?_append, dget?_avgP95Entry_ne recs t' t hne, ih hts]
    rfl

/-- The averaged P95 column of an iterated tenant count. -/
theorem dget?_avgP95Fields_mem (recs : List DetailedRecord) (tcs : List ℚ) (t : ℚ)
    (ht : t ∈ tcs) :
    dget? (avgP95Fields recs tcs) (DKey.p95 t) =
      (if (populatedVals recs (DKey.p95 t)).isEmpty then none
       else some (some (pyRoundP 2 (pyMean (populatedVals recs (DKey.p95 t)))))) := by
  induction tcs with
  | nil => simp at ht
  | cons t' ts ih =>
    show dget? (avgP95Entry recs t' ++ avgP95Fields recs ts) (DKey.p95 t) = _
    rw [dget?_append]
    by_cases he : t' = t
    · subst he
      rw [dget?_avgP95Entry_self]
      by_cases hv : (populatedVals recs (DKey.p95 t')).isEmpty
      · rw [if_pos hv]
        by_cases hm : t' ∈ ts
        · rw [ih hm, if_pos hv]; rfl
        · rw [dget?_avgP95Fields_not_mem recs ts t' hm]; rfl
      · rw [if_neg hv]; rfl
    · have hm : t ∈ ts := by
        rcases List.mem_cons.mp ht with h | h
        · exact absurd h.symm he
        · exact h
      rw [dget?_avgP95Entry_ne recs t' t he, ih hm]
      rfl

/-- Averaged pct columns contain no P95 keys. -/
theorem dget?_avgPctFields_p95 (recs : List DetailedRecord) (baseline : ℚ)
    (tcs : List ℚ) (t : ℚ) :
    dget? (avgPctFields recs baseline tcs) (DKey.p95 t) = none := by
  induction tcs with
  | nil => rfl
  | cons t' ts ih =>
    show dget? (avgPctEntry recs baseline t' ++ avgPctFields recs baseline ts)
      (DKey.p95 t) = none
    rw [dget?_append, dget?_avgPctEntry_p95, ih]
    rfl

/-- Averaged pct columns only carry the analysis baseline. -/
theorem dget?_avgPctFields_ne_baseline (recs : List DetailedRecord) (baseline : ℚ)
    (tcs : List ℚ) (b t : ℚ) (hb : b ≠ baseline) :
    dget? (avgPctFields recs baseline tcs) (DKey.pct b t) = none := by
  induction tcs with
  | nil => rfl
  | cons t' ts ih =>
    show dget? (avgPctEntry recs baseline t' ++ avgPctFields recs baseline ts)
      (DKey.pct b t) = none
    rw [dget?_append, dget?_avgPctEntry_ne recs baseline t' b t (Or.inl hb), ih]
    rfl

/-- A tenant count outside the iterated list has no averaged pct
column. -/
theorem dget?_avgPctFields_not_mem (recs : List DetailedRecord) (baseline : ℚ)
    (tcs : List ℚ) (t : ℚ) (ht : t ∉ tcs) :
    dget? (avgPctFields recs baseline tcs) (DKey.pct baseline t) = none := by
  induction tcs with
  | nil => rfl
  | cons t' ts ih =>
    have hne : t' ≠ t := fun he => ht (he ▸ List.mem_cons_self t' ts)
    have hts : t ∉ ts := fun hm => ht (List.mem_cons_of_mem t' hm)
    show dget? (avgPctEntry recs baseline t' ++ avgPctFields recs baseline ts)
      (DKey.pct baseline t) = none
    rw [dget?_append, dget?_avgPctEntry_ne recs baseline t' baseline t (Or.inr hne), ih hts]
    rfl

/-- The averaged pct column of an iterated non-baseline tenant count. -/
theorem dget?_avgPctFields_mem (recs : List DetailedRecord) (baseline : ℚ)
    (tcs : List ℚ) (t : ℚ) (ht : t ∈ tcs) (hne : t ≠ baseline) :
    dget? (avgPctFields recs baseline tcs) (DKey.pct baseline t) =
      (if (populatedVals recs (DKey.pct baseline t)).isEmpty then none
       else some (some (pyRoundP 1 (pyMean (populatedVals recs (DKey.pct baseline t)))))) := by
  induction tcs with
  | nil => simp at ht
  | cons t' ts ih =>
    show dget? (avgPctEntry recs baseline t' ++ avgPctFields recs baseline ts)
      (DKey.pct baseline t) = _
    rw [dget?_append]
    by_cases he : t' = t
    · subst he
      rw [dget?_avgPctEntry_self recs baseline t' hne]
      by_cases hv : (populatedVals recs (DKey.pct baseline t')).isEmpty
      · rw [if_pos hv]
        by_cases hm : t' ∈ ts
        · rw [ih hm, if_pos hv]; rfl
        · rw [dget?_avgPctFields_not_mem recs baseline ts t' hm]; rfl
      · rw [if_neg hv]; rfl
    · have hm : t ∈ ts := by
        rcases List.mem_cons.mp ht with h | h
        · exact absurd h.symm he
        · exact h
      rw [dget?_avgPctEntry_ne recs baseline t' baseline t (Or.inr he), ih hm]
      rfl

/-! ## Structure of the analysis tables -/

/-- The fields of one detailed record, unfolded. -/
theorem mkDetailedRecord_fields (df : List Row) (tcs : List ℚ) (baseline : ℚ)
    (op : String) (conc : ℚ) :
    (mkDetailedRecord df tcs baseline op conc).fields =
      p95Fields df (op ++ "_p95_ms") conc tcs ++
        pctFields (p95Fields df (op ++ "_p95_ms") conc tcs)
          (baselineVal df (op ++ "_p95_ms") conc baseline) baseline tcs := rfl

/-- The operation of one detailed record. -/
theorem mkDetailedRecord_operation (df : List Row) (tcs : List ℚ) (baseline : ℚ)
    (op : String) (conc : ℚ) :
    (mkDetailedRecord df tcs baseline op conc).operation = op := rfl

/-- The category of one detailed record. -/
theorem mkDetailedRecord_category (df : List Row) (tcs : List ℚ) (baseline : ℚ)
    (op : String) (conc : ℚ) :
    (mkDetailedRecord df tcs baseline op conc).category = getOperationCategory op := rfl

/-- The concurrency of one detailed record. -/
theorem mkDetailedRecord_concurrency (df : List Row) (tcs : List ℚ) (baseline : ℚ)
    (op : String) (conc : ℚ) :
    (mkDetailedRecord df tcs baseline op conc).concurrency = conc := rfl

/-- Membership in the detailed-record table. -/
theorem mem_detailedRecords_iff (df : List Row) (tcs : List ℚ) (baseline : ℚ)
    (levels : List ℚ) (ops : List String) (r : DetailedRecord) :
    r ∈ detailedRecords df tcs baseline levels ops ↔
      ∃ op ∈ ops, (matrixColumns df).contains (op ++ "_p95_ms") = true ∧
        ∃ conc ∈ levels, r = mkDetailedRecord df tcs baseline op conc := by
  unfold detailedRecords
  rw [List.mem_flatMap]
  constructor
  · rintro ⟨op, hop, hr⟩
    by_cases hc : (matrixColumns df).contains (op ++ "_p95_ms")
    · rw [if_pos hc] at hr
      rcases List.mem_map.mp hr with ⟨conc, hconc, he⟩
      exact ⟨op, hop, hc, conc, hconc, he.symm⟩
    · rw [if_neg hc] at hr
      simp at hr
  · rintro ⟨op, hop, hc, conc, hconc, he⟩
    refine ⟨op, hop, ?_⟩
    rw [if_pos hc]
    exact List.mem_map.mpr ⟨conc, hconc, he.symm⟩

/-- Unfolding a successful analysis run. -/
theorem save_some_parts (df : List Row) (out : List DetailedRecord × List SummaryRecord)
    (h : save_latency_analysis_csv df = some out) :
    2 ≤ (tenantCountsOf df).length ∧
    out.1 = analysisDetailed df ∧ out.2 = analysisSummary df := by
  unfold save_latency_analysis_csv at h
  by_cases h1 : (tenantCountsOf df).length < 2
  · rw [if_pos h1] at h
    exact absurd h (by simp)
  · rw [if_neg h1] at h
    by_cases h2 : (operationsOf df).isEmpty
    · rw [if_pos h2] at h
      exact absurd h (by simp)
    · rw [if_neg h2] at h
      have he := Option.some.inj h
      exact ⟨not_lt.mp h1, by rw [← he], by rw [← he]⟩

/-- The baseline is one of the distinct tenant counts whenever there are
at least two of them. -/
theorem baselineOf_mem (df : List Row) (h : 2 ≤ (tenantCountsOf df).length) :
    baselineOf df ∈ tenantCountsOf df := by
  apply pyMin_mem
  intro he
  rw [he] at h
  simp at h

/-! ## Claim C8 — skip without two tenant counts; global minimum baseline -/

/-- C8: with fewer than two distinct tenant counts the engine produces no
comparative output at all (the condition is a logged skip, not an error —
the embedding is total and returns the explicit `none`); with two or more,
the baseline is the numeric minimum of all observed tenant counts,
computed once globally — in particular every percentage-change key of
every detailed record carries that one global baseline, whatever its
concurrency level. -/
theorem analysis_skip_or_global_min_baseline (df : List Row) :
    ((tenantCountsOf df).length < 2 → save_latency_analysis_csv df = none) ∧
    (2 ≤ (tenantCountsOf df).length →
      baselineOf df ∈ df.map matrixTenants ∧
      ∀ x ∈ df.map matrixTenants, baselineOf df ≤ x) ∧
    (∀ out, save_latency_analysis_csv df = some out →
      ∀ r ∈ out.1, ∀ b t : ℚ,
        (dget? r.fields (DKey.pct b t)).isSome = true → b = baselineOf df) := by
  refine ⟨?_, ?_, ?_⟩
  · intro h1
    unfold save_latency_analysis_csv
    rw [if_pos h1]
  · intro h2
    constructor
    · exact mem_sortedUnique.mp (baselineOf_mem df h2)
    · intro x hx
      exact pyMin_le _ x (mem_sortedUnique.mpr hx)
  · intro out hout r hr b t hsome
    obtain ⟨hlen, hout1, hout2⟩ := save_some_parts df out hout
    rw [hout1] at hr
    rw [show analysisDetailed df = detailedRecords df (tenantCountsOf df) (baselineOf df)
      (levelsOf df) (operationsOf df) from rfl, mem_detailedRecords_iff] at hr
    rcases hr with ⟨op, _, _, conc, _, he⟩
    by_contra hb
    rw [he, mkDetailedRecord_fields, dget?_append, dget?_p95Fields_pct,
      dget?_pctFields_ne_baseline _ _ _ _ _ _ hb] at hsome
    simp [Option.or] at hsome

/-- Witness data for C8: a matrix with a single tenant count. -/
def exDFSingle : List Row :=
  [[("tenants", 1), ("concurrency", 10), ("get_run_p95_ms", 100)],
   [("tenants", 1), ("concurrency", 50), ("get_run_p95_ms", 120)]]

/-- Witness data for the analysis claims: two tenant counts, one
concurrency level, one operation. -/
def exDF : List Row :=
  [[("tenants", 1), ("concurrency", 10), ("get_run_p95_ms", 100)],
   [("tenants", 10), ("concurrency", 10), ("get_run_p95_ms", 150)]]

/-- The detailed table of `exDF`, fully evaluated. -/
def exDetailed : List DetailedRecord :=
  [⟨"get_run", "read", 10,
    [(DKey.p95 1, some (.num 100)), (DKey.p95 10, some (.num 150)),
     (DKey.pct 1 10, some (.num 50))]⟩]

/-- The summary table of `exDF`, fully evaluated. -/
def exSummary : List SummaryRecord :=
  [⟨"read", 10,
    [(DKey.p95 1, some (.num 100)), (DKey.p95 10, some (.num 150)),
     (DKey.pct 1 10, some (.num 50))]⟩]

/-- Concrete evaluation of the whole analysis on `exDF`: one operation,
two tenant counts, a 50% P95 increase from baseline. -/
theorem exDF_eval : save_latency_analysis_csv exDF = some (exDetailed, exSummary) := by
  have h1 : tenantCountsOf exDF = [1, 10] := by decide
  have h2 : levelsOf exDF = [10] := by decide
  have h3 : operationsOf exDF = ["get_run"] := by decide
  have h4 : baselineOf exDF = 1 := by decide
  simp only [save_latency_analysis_csv, analysisDetailed, analysisSummary, h1, h2, h3, h4]
  simp +decide [detailedRecords, mkDetailedRecord, p95Fields, p95Entry, pctFields, pctEntry,
    baselineVal, findRow, cellOf, dget?, calculatePctChange, truthyOpt, PyNum.truthy,
    PyNum.isZero, PyNum.sub, PyNum.div, PyNum.mul, pyRoundP, matrixTenants, matrixConc,
    getField?, getOperationCategory, OPERATION_CATEGORIES, summaryRecords, avgP95Fields,
    avgP95Entry, avgPctFields, avgPctEntry, populatedVals, pyMean, PyNum.add, exDF,
    beq_decide, exDetailed, exSummary]
  norm_num +decide [pyRoundQ, roundHalfEven, pyMean, populatedVals, dget?, PyNum.add,
    PyNum.div, avgPctFields, avgPctEntry, List.find?, List.filterMap, List.foldl, beq_decide]

/-- Witness for C8: the single-tenant matrix is skipped; on `exDF` the
baseline is the observed minimum 1, and the pct key of the one detailed
record indeed carries it. -/
theorem analysis_skip_or_global_min_baseline_witness :
    save_latency_analysis_csv exDFSingle = none ∧
    baselineOf exDF ∈ exDF.map matrixTenants ∧
    (1 : ℚ) = baselineOf exDF :=
  ⟨(analysis_skip_or_global_min_baseline exDFSingle).1 (by decide),
   ((analysis_skip_or_global_min_baseline exDF).2.1 (by decide)).1,
   (analysis_skip_or_global_min_baseline exDF).2.2 (exDetailed, exSummary) exDF_eval
     ⟨"get_run", "read", 10,
      [(DKey.p95 1, some (.num 100)), (DKey.p95 10, some (.num 150)),
       (DKey.pct 1 10, some (.num 50))]⟩ (by decide) 1 10 (by decide)⟩

/-! ## Claim C1 — the percentage-change formula and its undefined cases -/

/-- The CSV-visible worth of a float-or-`None` Python value. -/
def definedNum : Option PyNum → Option ℚ
  | some (.num q) => some q
  | _ => none

/-- Mapping `some` over an optional float and reading it back as a CSV
cell is reading the float itself. -/
theorem definedD_map_some (v : Option PyNum) :
    definedD (v.map some) = definedNum v := by
  cases v with
  | none => rfl
  | some pn => cases pn <;> rfl

/-- The rounded P95 cell wrapped for the record dict. -/
theorem p95cell_map (df : List Row) (col : String) (conc t : ℚ) :
    (findRow df t conc).map (fun r => some (pyRoundP 2 (cellOf r col))) =
      ((baselineVal df col conc t).map some : Option DVal) := by
  unfold baselineVal
  cases findRow df t conc <;> rfl

/-- Percentage change from a numeric nonzero baseline to a numeric value. -/
theorem calculatePctChange_num (b v : ℚ) (hb : b ≠ 0) :
    calculatePctChange (some (.num b)) (some (.num v)) =
      some (.num (pyRoundQ 1 ((v - b) / b * 100))) := by
  simp [calculatePctChange, PyNum.isZero, hb, PyNum.sub, PyNum.div, PyNum.mul, pyRoundP]

/-- A `NaN` baseline is truthy and not zero, so the change is computed —
and is `NaN`. -/
theorem calculatePctChange_nan_baseline (v : PyNum) :
    calculatePctChange (some PyNum.nan) (some v) = some PyNum.nan := by
  cases v <;>
    simp [calculatePctChange, PyNum.isZero, PyNum.sub, PyNum.div, PyNum.mul, pyRoundP]

/-- A `NaN` comparison value propagates through the change formula. -/
theorem calculatePctChange_num_nan (b : ℚ) (hb : b ≠ 0) :
    calculatePctChange (some (.num b)) (some PyNum.nan) = some PyNum.nan := by
  simp [calculatePctChange, PyNum.isZero, hb, PyNum.sub, PyNum.div, PyNum.mul, pyRoundP]

/-- Truthiness of the computed percentage change, fully cased over the two
rounded cell values: the stored change is CSV-defined exactly when both
cells are defined and the baseline is nonzero, and then it is
`round(((v - b) / b) * 100, 1)`. -/
theorem pct_defined_cases (bv vT : Option PyNum) :
    definedD (match (vT.map some : Option DVal), truthyOpt bv with
       | some dv, true => some (calculatePctChange bv dv)
       | _, _ => none) =
      (match definedNum bv, definedNum vT with
       | some b, some v => if b = 0 then none else some (pyRoundQ 1 ((v - b) / b * 100))
       | _, _ => none) := by
  cases vT with
  | none =>
    cases bv with
    | none => rfl
    | some pb =>
      cases pb with
      | nan => rfl
      | num qb => by_cases hqb : qb = 0 <;>
          simp [truthyOpt, PyNum.truthy, definedD, definedNum, hqb]
  | some pv =>
    cases bv with
    | none => cases pv <;> rfl
    | some pb =>
      cases pb with
      | nan =>
        have hcalc := calculatePctChange_nan_baseline pv
        cases pv <;> simp [truthyOpt, PyNum.truthy, definedD, definedNum, hcalc]
      | num qb =>
        by_cases hqb : qb = 0
        · subst hqb
          cases pv <;> simp [truthyOpt, PyNum.truthy, definedD, definedNum]
        · cases pv with
          | nan =>
            simp [truthyOpt, PyNum.truthy, definedD, definedNum, hqb,
              calculatePctChange_num_nan qb hqb]
          | num qv =>
            simp [truthyOpt, PyNum.truthy, definedD, definedNum, hqb,
              calculatePctChange_num qb qv hqb]

/-- C1: in every detailed record of a successful analysis run, the
percentage-change field of a non-baseline tenant count is CSV-defined
exactly when the record's baseline P95 value and compared P95 value are
both CSV-defined and the baseline is nonzero, and then it equals
`round(((v - b) / b) * 100, 1)`; it is undefined/absent whenever the
baseline is zero, the baseline is absent, or the compared value is absent
— never an infinity, and never through a division by zero (the division
is only taken under the `b ≠ 0` branch). -/
theorem pct_change_formula (df : List Row) (out : List DetailedRecord × List SummaryRecord)
    (r : DetailedRecord) (t : ℚ)
    (h : save_latency_analysis_csv df = some out) (hr : r ∈ out.1)
    (ht : t ≠ baselineOf df) :
    definedGet r.fields (DKey.pct (baselineOf df) t) =
      (match definedGet r.fields (DKey.p95 (baselineOf df)),
             definedGet r.fields (DKey.p95 t) with
       | some b, some v => if b = 0 then none else some (pyRoundQ 1 ((v - b) / b * 100))
       | _, _ => none) := by
  obtain ⟨hlen, hout1, _⟩ := save_some_parts df out h
  rw [hout1] at hr
  rw [show analysisDetailed df = detailedRecords df (tenantCountsOf df) (baselineOf df)
    (levelsOf df) (operationsOf df) from rfl, mem_detailedRecords_iff] at hr
  rcases hr with ⟨op, _, _, conc, _, he⟩
  subst he
  rw [mkDetailedRecord_fields]
  have hbmem : baselineOf df ∈ tenantCountsOf df := baselineOf_mem df hlen
  have hKb : dget? (p95Fields df (op ++ "_p95_ms") conc (tenantCountsOf df) ++
      pctFields (p95Fields df (op ++ "_p95_ms") conc (tenantCountsOf df))
        (baselineVal df (op ++ "_p95_ms") conc (baselineOf df)) (baselineOf df)
        (tenantCountsOf df)) (DKey.p95 (baselineOf df)) =
      (baselineVal df (op ++ "_p95_ms") conc (baselineOf df)).map some := by
    rw [dget?_append, dget?_pctFields_p95, Option.or_none,
      dget?_p95Fields_mem df _ conc _ _ hbmem, p95cell_map]
  by_cases htm : t ∈ tenantCountsOf df
  · have hKt : dget? (p95Fields df (op ++ "_p95_ms") conc (tenantCountsOf df) ++
        pctFields (p95Fields df (op ++ "_p95_ms") conc (tenantCountsOf df))
          (baselineVal df (op ++ "_p95_ms") conc (baselineOf df)) (baselineOf df)
          (tenantCountsOf df)) (DKey.p95 t) =
        (baselineVal df (op ++ "_p95_ms") conc t).map some := by
      rw [dget?_append, dget?_pctFields_p95, Option.or_none,
        dget?_p95Fields_mem df _ conc _ _ htm, p95cell_map]
    have hKpct : dget? (p95Fields df (op ++ "_p95_ms") conc (tenantCountsOf df) ++
        pctFields (p95Fields df (op ++ "_p95_ms") conc (tenantCountsOf df))
          (baselineVal df (op ++ "_p95_ms") conc (baselineOf df)) (baselineOf df)
          (tenantCountsOf df)) (DKey.pct (baselineOf df) t) =
        (match ((baselineVal df (op ++ "_p95_ms") conc t).map some : Option DVal),
               truthyOpt (baselineVal df (op ++ "_p95_ms") conc (baselineOf df)) with
         | some dv, true =>
           some (calculatePctChange (baselineVal df (op ++ "_p95_ms") conc (baselineOf df)) dv)
         | _, _ => none) := by
      rw [dget?_append, dget?_p95Fields_pct, Option.none_or,
        dget?_pctFields_mem _ _ _ _ t htm ht,
        dget?_p95Fields_mem df _ conc _ _ htm, p95cell_map]
    unfold definedGet
    rw [hKb, hKt, hKpct, definedD_map_some, definedD_map_some]
    exact pct_defined_cases _ _
  · have hKt : dget? (p95Fields df (op ++ "_p95_ms") conc (tenantCountsOf df) ++
        pctFields (p95Fields df (op ++ "_p95_ms") conc (tenantCountsOf df))
          (baselineVal df (op ++ "_p95_ms") conc (baselineOf df)) (baselineOf df)
          (tenantCountsOf df)) (DKey.p95 t) = none := by
      rw [dget?_append, dget?_pctFields_p95, Option.or_none,
        dget?_p95Fields_not_mem df _ conc _ _ htm]
    have hKpct : dget? (p95Fields df (op ++ "_p95_ms") conc (tenantCountsOf df) ++
        pctFields (p95Fields df (op ++ "_p95_ms") conc (tenantCountsOf df))
          (baselineVal df (op ++ "_p95_ms") conc (baselineOf df)) (baselineOf df)
          (tenantCountsOf df)) (DKey.pct (baselineOf df) t) = none := by
      rw [dget?_append, dget?_p95Fields_pct, Option.none_or,
        dget?_pctFields_not_mem _ _ _ _ t htm]
    unfold definedGet
    rw [hKb, hKt, hKpct, definedD_map_some]
    cases definedNum (baselineVal df (op ++ "_p95_ms") conc (baselineOf df)) <;> rfl

/-- Witness for C1 on `exDF`: tenants 1 and 10 at concurrency 10 with
P95 values 100 and 150 give a +50.0% change field. -/
theorem pct_change_formula_witness :
    definedGet (DetailedRecord.mk "get_run" "read" 10
      [(DKey.p95 1, some (.num 100)), (DKey.p95 10, some (.num 150)),
       (DKey.pct 1 10, some (.num 50))]).fields (DKey.pct (baselineOf exDF) 10) =
      (match definedGet (DetailedRecord.mk "get_run" "read" 10
          [(DKey.p95 1, some (.num 100)), (DKey.p95 10, some (.num 150)),
           (DKey.pct 1 10, some (.num 50))]).fields (DKey.p95 (baselineOf exDF)),
          definedGet (DetailedRecord.mk "get_run" "read" 10
          [(DKey.p95 1, some (.num 100)), (DKey.p95 10, some (.num 150)),
           (DKey.pct 1 10, some (.num 50))]).fields (DKey.p95 10) with
       | some b, some v => if b = 0 then none else some (pyRoundQ 1 ((v - b) / b * 100))
       | _, _ => none) :=
  pct_change_formula exDF (exDetailed, exSummary) _ 10 exDF_eval (by decide) (by decide)

/-! ## Claim C9 — stored P95 values are rounded, and changes are computed
from the rounded values -/

/-- C9: for every (operation, concurrency, tenant count) with a matching
matrix row, the detailed record stores `round(row[p95_col], 2)` — the
matrix P95 cell rounded to two decimals — and the percentage-change field
is `_calculate_pct_change` applied to the rounded baseline cell
(`baselineVal`, itself a rounded cell) and that same rounded value, not to
the raw matrix cells. -/
theorem detailed_values_rounded (df : List Row)
    (out : List DetailedRecord × List SummaryRecord)
    (r : DetailedRecord) (t : ℚ) (row : Row)
    (h : save_latency_analysis_csv df = some out) (hr : r ∈ out.1)
    (ht : t ∈ tenantCountsOf df)
    (hrow : findRow df t r.concurrency = some row) :
    dget? r.fields (DKey.p95 t) =
      some (some (pyRoundP 2 (cellOf row (r.operation ++ "_p95_ms")))) ∧
    (t ≠ baselineOf df →
      truthyOpt (baselineVal df (r.operation ++ "_p95_ms") r.concurrency
        (baselineOf df)) = true →
      dget? r.fields (DKey.pct (baselineOf df) t) =
        some (calculatePctChange
          (baselineVal df (r.operation ++ "_p95_ms") r.concurrency (baselineOf df))
          (some (pyRoundP 2 (cellOf row (r.operation ++ "_p95_ms")))))) := by
  obtain ⟨hlen, hout1, _⟩ := save_some_parts df out h
  rw [hout1] at hr
  rw [show analysisDetailed df = detailedRecords df (tenantCountsOf df) (baselineOf df)
    (levelsOf df) (operationsOf df) from rfl, mem_detailedRecords_iff] at hr
  rcases hr with ⟨op, _, _, conc, _, he⟩
  subst he
  simp only [mkDetailedRecord_operation, mkDetailedRecord_concurrency] at hrow ⊢
  rw [mkDetailedRecord_fields]
  constructor
  · rw [dget?_append, dget?_pctFields_p95, Option.or_none,
      dget?_p95Fields_mem df _ conc _ t ht, hrow]
    rfl
  · intro hne htruth
    rw [dget?_append, dget?_p95Fields_pct, Option.none_or,
      dget?_pctFields_mem _ _ _ _ t ht hne,
      dget?_p95Fields_mem df _ conc _ t ht, hrow, htruth]
    rfl

/-- Witness for C9 on `exDF` at tenants 10, concurrency 10: the stored
value is the rounded cell of the matching row. -/
theorem detailed_values_rounded_witness :
    dget? (DetailedRecord.mk "get_run" "read" 10
      [(DKey.p95 1, some (.num 100)), (DKey.p95 10, some (.num 150)),
       (DKey.pct 1 10, some (.num 50))]).fields (DKey.p95 10) =
      some (some (pyRoundP 2 (cellOf
        [("tenants", 10), ("concurrency", 10), ("get_run_p95_ms", 150)]
        ((DetailedRecord.mk "get_run" "read" 10
          [(DKey.p95 1, some (.num 100)), (DKey.p95 10, some (.num 150)),
           (DKey.pct 1 10, some (.num 50))]).operation ++ "_p95_ms")))) :=
  (detailed_values_rounded exDF (exDetailed, exSummary) _ 10
    [("tenants", 10), ("concurrency", 10), ("get_run_p95_ms", 150)]
    exDF_eval (by decide) (by decide) (by decide)).1

/-! ## Claim C4 — category summaries average only populated fields -/

/-- The summary row emitted for a category/concurrency pair with at least
one record. -/
theorem mem_summaryRecords (detailed : List DetailedRecord) (tcs : List ℚ)
    (baseline : ℚ) (levels : List ℚ) (cat : String) (conc : ℚ)
    (hcat : cat ∈ List.insertionSort (fun a b : String => a.data ≤ b.data)
      ((detailed.map (fun r => r.category)).dedup))
    (hconc : conc ∈ levels)
    (hne : ((detailed.filter (fun r => r.category == cat)).filter
      (fun r => r.concurrency == conc)).isEmpty = false) :
    (SummaryRecord.mk cat conc
      (avgP95Fields ((detailed.filter (fun r => r.category == cat)).filter
          (fun r => r.concurrency == conc)) tcs ++
        avgPctFields ((detailed.filter (fun r => r.category == cat)).filter
          (fun r => r.concurrency == conc)) baseline tcs)) ∈
      summaryRecords detailed tcs baseline levels := by
  unfold summaryRecords
  rw [List.mem_flatMap]
  refine ⟨cat, hcat, ?_⟩
  rw [List.mem_flatMap]
  refine ⟨conc, hconc, ?_⟩
  show _ ∈ (if ((detailed.filter (fun r => r.category == cat)).filter
      (fun r => r.concurrency == conc)).isEmpty = true then ([] : List SummaryRecord)
    else [SummaryRecord.mk cat conc _])
  rw [hne]
  simp

/-- C4: for every (category, concurrency) pair with at least one detailed
record, the summary table contains a row for the pair whose averaged P95
column per tenant count is `round(np.mean(values), 2)` over exactly the
records that populate that column (absent values are ignored, never
treated as zero), and whose averaged percentage-change column per
non-baseline tenant count is `round(np.mean(values), 1)` likewise; a
column no record populates is omitted from the row entirely. -/
theorem category_summary_averages (df : List Row)
    (out : List DetailedRecord × List SummaryRecord) (cat : String) (conc : ℚ)
    (h : save_latency_analysis_csv df = some out)
    (hne : (out.1.filter (fun r => r.category == cat)).filter
      (fun r => r.concurrency == conc) ≠ []) :
    ∃ s ∈ out.2, s.category = cat ∧ s.concurrency = conc ∧
      (∀ t : ℚ, t ∈ tenantCountsOf df →
        (populatedVals ((out.1.filter (fun r => r.category == cat)).filter
            (fun r => r.concurrency == conc)) (DKey.p95 t) = [] →
          dget? s.fields (DKey.p95 t) = none) ∧
        (populatedVals ((out.1.filter (fun r => r.category == cat)).filter
            (fun r => r.concurrency == conc)) (DKey.p95 t) ≠ [] →
          dget? s.fields (DKey.p95 t) =
            some (some (pyRoundP 2 (pyMean (populatedVals
              ((out.1.filter (fun r => r.category == cat)).filter
                (fun r => r.concurrency == conc)) (DKey.p95 t))))))) ∧
      (∀ t : ℚ, t ∈ tenantCountsOf df → t ≠ baselineOf df →
        (populatedVals ((out.1.filter (fun r => r.category == cat)).filter
            (fun r => r.concurrency == conc)) (DKey.pct (baselineOf df) t) = [] →
          dget? s.fields (DKey.pct (baselineOf df) t) = none) ∧
        (populatedVals ((out.1.filter (fun r => r.category == cat)).filter
            (fun r => r.concurrency == conc)) (DKey.pct (baselineOf df) t) ≠ [] →
          dget? s.fields (DKey.pct (baselineOf df) t) =
            some (some (pyRoundP 1 (pyMean (populatedVals
              ((out.1.filter (fun r => r.category == cat)).filter
                (fun r => r.concurrency == conc)) (DKey.pct (baselineOf df) t))))))) := by
  obtain ⟨hlen, hout1, hout2⟩ := save_some_parts df out h
  rw [hout1] at hne ⊢
  rw [hout2]
  obtain ⟨r0, hr0⟩ := List.exists_mem_of_ne_nil _ hne
  have hr0f := hr0
  rw [List.mem_filter] at hr0f
  obtain ⟨hr0c, hr0conc⟩ := hr0f
  rw [List.mem_filter] at hr0c
  obtain ⟨hr0mem, hr0cat⟩ := hr0c
  have hcat : cat ∈ List.insertionSort (fun a b : String => a.data ≤ b.data)
      (((analysisDetailed df).map (fun r => r.category)).dedup) := by
    rw [List.mem_insertionSort, List.mem_dedup]
    exact List.mem_map.mpr ⟨r0, hr0mem, by rw [beq_decide] at hr0cat; exact
      (of_decide_eq_true hr0cat)⟩
  have hconc : conc ∈ levelsOf df := by
    have hmem := hr0mem
    rw [show analysisDetailed df = detailedRecords df (tenantCountsOf df) (baselineOf df)
      (levelsOf df) (operationsOf df) from rfl, mem_detailedRecords_iff] at hmem
    rcases hmem with ⟨op, _, _, conc', hconc', he⟩
    have : r0.concurrency = conc' := by rw [he, mkDetailedRecord_concurrency]
    rw [beq_decide] at hr0conc
    have hc : r0.concurrency = conc := of_decide_eq_true hr0conc
    rw [← hc, this]
    exact hconc'
  have hnee : (((analysisDetailed df).filter (fun r => r.category == cat)).filter
      (fun r => r.concurrency == conc)).isEmpty = false := by
    cases hie : (((analysisDetailed df).filter (fun r => r.category == cat)).filter
        (fun r => r.concurrency == conc)).isEmpty
    · rfl
    · rw [List.isEmpty_iff] at hie
      exact absurd hie hne
  refine ⟨SummaryRecord.mk cat conc _,
    mem_summaryRecords (analysisDetailed df) (tenantCountsOf df) (baselineOf df)
      (levelsOf df) cat conc hcat hconc hnee, rfl, rfl, ?_, ?_⟩
  · intro t htm
    constructor
    · intro hv
      show dget? (avgP95Fields _ _ ++ avgPctFields _ _ _) (DKey.p95 t) = none
      rw [dget?_append, dget?_avgPctFields_p95, Option.or_none,
        dget?_avgP95Fields_mem _ _ t htm, hv]
      rfl
    · intro hv
      show dget? (avgP95Fields _ _ ++ avgPctFields _ _ _) (DKey.p95 t) = _
      rw [dget?_append, dget?_avgPctFields_p95, Option.or_none,
        dget?_avgP95Fields_mem _ _ t htm]
      rw [if_neg (by simpa [List.isEmpty_iff] using hv)]
  · intro t htm htb
    constructor
    · intro hv
      show dget? (avgP95Fields _ _ ++ avgPctFields _ _ _) (DKey.pct (baselineOf df) t) = none
      rw [dget?_append, dget?_avgP95Fields_pct, Option.none_or,
        dget?_avgPctFields_mem _ _ _ t htm htb, hv]
      rfl
    · intro hv
      show dget? (avgP95Fields _ _ ++ avgPctFields _ _ _)
        (DKey.pct (baselineOf df) t) = _
      rw [dget?_append, dget?_avgP95Fields_pct, Option.none_or,
        dget?_avgPctFields_mem _ _ _ t htm htb]
      rw [if_neg (by simpa [List.isEmpty_iff] using hv)]

/-- Witness data for C4: two `read` operations with P95 values 100 and
200 at the baseline tenant count and the same concurrency. -/
def exDF4 : List Row :=
  [[("tenants", 1), ("concurrency", 10), ("get_run_p95_ms", 100),
    ("get_experiment_p95_ms", 200)],
   [("tenants", 10), ("concurrency", 10), ("get_run_p95_ms", 110),
    ("get_experiment_p95_ms", 220)]]

/-- The detailed table of `exDF4`, fully evaluated (operations in sorted
order). -/
def exDetailed4 : List DetailedRecord :=
  [⟨"get_experiment", "read", 10,
    [(DKey.p95 1, some (.num 200)), (DKey.p95 10, some (.num 220)),
     (DKey.pct 1 10, some (.num 10))]⟩,
   ⟨"get_run", "read", 10,
    [(DKey.p95 1, some (.num 100)), (DKey.p95 10, some (.num 110)),
     (DKey.pct 1 10, some (.num 10))]⟩]

/-- The summary table of `exDF4`: the two P95 values 100 and 200 average
to 150. -/
def exSummary4 : List SummaryRecord :=
  [⟨"read", 10,
    [(DKey.p95 1, some (.num 150)), (DKey.p95 10, some (.num 165)),
     (DKey.pct 1 10, some (.num 10))]⟩]

/-- Concrete evaluation of the whole analysis on `exDF4`. -/
theorem exDF4_eval : save_latency_analysis_csv exDF4 = some (exDetailed4, exSummary4) := by
  have h1 : tenantCountsOf exDF4 = [1, 10] := by decide
  have h2 : levelsOf exDF4 = [10] := by decide
  have h3 : operationsOf exDF4 = ["get_experiment", "get_run"] := by decide
  have h4 : baselineOf exDF4 = 1 := by decide
  simp only [save_latency_analysis_csv, analysisDetailed, analysisSummary, h1, h2, h3, h4]
  simp +decide [detailedRecords, mkDetailedRecord, p95Fields, p95Entry, pctFields, pctEntry,
    baselineVal, findRow, cellOf, dget?, calculatePctChange, truthyOpt, PyNum.truthy,
    PyNum.isZero, PyNum.sub, PyNum.div, PyNum.mul, pyRoundP, matrixTenants, matrixConc,
    getField?, getOperationCategory, OPERATION_CATEGORIES, summaryRecords, avgP95Fields,
    avgP95Entry, avgPctFields, avgPctEntry, populatedVals, pyMean, PyNum.add, exDF4,
    beq_decide, exDetailed4, exSummary4]
  norm_num +decide [pyRoundQ, roundHalfEven, pyMean, populatedVals, dget?, PyNum.add,
    PyNum.div, avgPctFields, avgPctEntry, List.find?, List.filterMap, List.foldl, beq_decide]

/-- Witness for C4 on `exDF4`: the `read` summary at concurrency 10
exists, and its averaged baseline P95 column holds 150 — the mean of the
two operations' 100 and 200. -/
theorem category_summary_averages_witness :
    ((exDetailed4, exSummary4).1.filter (fun r => r.category == "read")).filter
      (fun r => r.concurrency == (10 : ℚ)) ≠ [] ∧
    (∃ s ∈ (exDetailed4, exSummary4).2, s.category = "read" ∧ s.concurrency = (10 : ℚ)) ∧
    dget? (SummaryRecord.mk "read" 10
      [(DKey.p95 1, some (.num 150)), (DKey.p95 10, some (.num 165)),
       (DKey.pct 1 10, some (.num 10))]).fields (DKey.p95 1) = some (some (.num 150)) := by
  refine ⟨by decide, ?_, by decide⟩
  obtain ⟨s, hs, hc1, hc2, _⟩ :=
    category_summary_averages exDF4 (exDetailed4, exSummary4) "read" 10 exDF4_eval (by decide)
  exact ⟨s, hs, hc1, hc2⟩

/-! ## Claim C5 — trend metric fields (corrected: Python `replace` strips
every occurrence, not only the suffix) -/

/-- The four trend columns: dict-key suffix paired with the `values` key
it reads. -/
def trendPairs : List (String × String) :=
  [("_avg_ms", "avg"), ("_p90_ms", "p(90)"), ("_p95_ms", "p(95)"), ("_max_ms", "max")]

/-- The column-key suffix of a `trendPairs` element is one of the four
trend suffixes. -/
theorem trendPairs_fst_mem {p : String × String} (hp : p ∈ trendPairs) :
    p.1 ∈ ["_avg_ms", "_p90_ms", "_p95_ms", "_max_ms"] := by
  fin_cases hp <;> decide

/-- The `values` key of a trend column is determined by its suffix. -/
theorem trendPairs_functional {x y z : String} (h1 : (x, y) ∈ trendPairs)
    (h2 : (x, z) ∈ trendPairs) : y = z := by
  simp only [trendPairs, List.mem_cons, List.not_mem_nil, or_false,
    Prod.mk.injEq] at h1 h2
  rcases h1 with ⟨hx1, hy⟩ | ⟨hx1, hy⟩ | ⟨hx1, hy⟩ | ⟨hx1, hy⟩ <;>
    rcases h2 with ⟨hx2, hz⟩ | ⟨hx2, hz⟩ | ⟨hx2, hz⟩ | ⟨hx2, hz⟩ <;>
    first
    | exact absurd (hx1.symm.trans hx2) (by decide)
    | rw [hy, hz]

/-- Every assignment of the single-pass loop comes either from a trend
`_response_time` entry — one of its four fixed pairs — or from a counter
entry, whose key ends in `_passed`, `_rps` or `_failed`. -/
theorem entryFields_writer (e : String × Metric) (kv : String × ℚ)
    (hkv : kv ∈ entryFields e.1 e.2) :
    (pyEndsWith e.1 "_response_time" = true ∧ e.2.type? = some "trend" ∧
      ∃ p ∈ trendPairs,
        kv = (pyReplace e.1 "_response_time" ++ p.1, vget e.2.values p.2)) ∨
    (∃ base, kv.1 = base ++ "_passed" ∨ kv.1 = base ++ "_rps" ∨
      kv.1 = base ++ "_failed") := by
  unfold entryFields at hkv
  by_cases h1 : (pyEndsWith e.1 "_response_time" && (e.2.type? == some "trend")) = true
  · rw [if_pos h1] at hkv
    rcases Bool.and_eq_true_iff.mp h1 with ⟨h1a, h1b⟩
    refine Or.inl ⟨h1a, by simpa [beq_decide] using h1b, ?_⟩
    rcases (by simpa using hkv :
        kv = (pyReplace e.1 "_response_time" ++ "_avg_ms", vget e.2.values "avg") ∨
        kv = (pyReplace e.1 "_response_time" ++ "_p90_ms", vget e.2.values "p(90)") ∨
        kv = (pyReplace e.1 "_response_time" ++ "_p95_ms", vget e.2.values "p(95)") ∨
        kv = (pyReplace e.1 "_response_time" ++ "_max_ms", vget e.2.values "max")) with
      h | h | h | h
    · exact ⟨("_avg_ms", "avg"), by decide, h⟩
    · exact ⟨("_p90_ms", "p(90)"), by decide, h⟩
    · exact ⟨("_p95_ms", "p(95)"), by decide, h⟩
    · exact ⟨("_max_ms", "max"), by decide, h⟩
  · rw [if_neg h1] at hkv
    by_cases h2 : (pyEndsWith e.1 "_passed" && (e.2.type? == some "counter")) = true
    · rw [if_pos h2] at hkv
      refine Or.inr ⟨pyReplace e.1 "_passed", ?_⟩
      rcases (by simpa using hkv :
          kv = (pyReplace e.1 "_passed" ++ "_passed", vget e.2.values "count") ∨
          kv = (pyReplace e.1 "_passed" ++ "_rps", vget e.2.values "rate")) with h | h
      · exact Or.inl (by rw [h])
      · exact Or.inr (Or.inl (by rw [h]))
    · rw [if_neg h2] at hkv
      by_cases h3 : (pyEndsWith e.1 "_failed" && (e.2.type? == some "counter")) = true
      · rw [if_pos h3] at hkv
        refine Or.inr ⟨pyReplace e.1 "_failed", Or.inr (Or.inr ?_)⟩
        have : kv = (pyReplace e.1 "_failed" ++ "_failed", vget e.2.values "count") := by
          simpa using hkv
        rw [this]
      · rw [if_neg h3] at hkv
        simp at hkv

/-- If every assignment of the single-pass loop that touches key `k`
writes `v`, the loop leaves `k` at `v` or untouched. -/
theorem extract_loop_get_agree (mets : List (String × Metric)) (r : Row) (k : String) (v : ℚ)
    (hall : ∀ e ∈ mets, ∀ kv ∈ entryFields e.1 e.2, kv.1 = k → kv.2 = v) :
    getField? (mets.foldl (fun r e => setFields r (entryFields e.1 e.2)) r) k = some v ∨
    getField? (mets.foldl (fun r e => setFields r (entryFields e.1 e.2)) r) k =
      getField? r k := by
  induction mets generalizing r with
  | nil => exact Or.inr rfl
  | cons e rest ih =>
    have hstep : (e :: rest).foldl (fun r e => setFields r (entryFields e.1 e.2)) r =
        rest.foldl (fun r e => setFields r (entryFields e.1 e.2))
          (setFields r (entryFields e.1 e.2)) := rfl
    rw [hstep]
    rcases ih (setFields r (entryFields e.1 e.2))
        (fun e' he' => hall e' (List.mem_cons_of_mem e he')) with hc | hc
    · exact Or.inl hc
    · rcases getField?_setFields_agree (entryFields e.1 e.2) r k v
          (fun kv hkv => hall e (List.mem_cons_self e rest) kv hkv) with hs | hs
      · exact Or.inl (hc.trans hs)
      · exact Or.inr (hc.trans hs)

/-- If moreover at least one assignment touches `k`, the loop leaves `k`
at `v`. -/
theorem extract_loop_get (mets : List (String × Metric)) (r : Row) (k : String) (v : ℚ)
    (hall : ∀ e ∈ mets, ∀ kv ∈ entryFields e.1 e.2, kv.1 = k → kv.2 = v)
    (hex : ∃ e ∈ mets, ∃ kv ∈ entryFields e.1 e.2, kv.1 = k) :
    getField? (mets.foldl (fun r e => setFields r (entryFields e.1 e.2)) r) k = some v := by
  induction mets generalizing r with
  | nil => simp at hex
  | cons e rest ih =>
    have hstep : (e :: rest).foldl (fun r e => setFields r (entryFields e.1 e.2)) r =
        rest.foldl (fun r e => setFields r (entryFields e.1 e.2))
          (setFields r (entryFields e.1 e.2)) := rfl
    rw [hstep]
    rcases hex with ⟨e', he', kv, hkv, hk⟩
    rcases List.mem_cons.mp he' with he0 | hmem
    · subst he0
      rcases extract_loop_get_agree rest (setFields r (entryFields e'.1 e'.2)) k v
          (fun x hx => hall x (List.mem_cons_of_mem e' hx)) with hc | hc
      · exact hc
      · rw [hc]
        exact getField?_setFields_of_mem (entryFields e'.1 e'.2) r k v
          (fun x hx => hall e' (List.mem_cons_self e' rest) x hx) ⟨kv, hkv, hk⟩
    · exact ih (setFields r (entryFields e.1 e.2))
        (fun x hx => hall x (List.mem_cons_of_mem e hx)) ⟨e', hmem, kv, hkv, hk⟩


/-- Core of the corrected C5, for one of the four trend columns: the
field keyed by the base name (Python `replace`, removing every
occurrence) plus suffix `S` survives to the extractor's output holding
the looked-up (default 0) value.  The separation hypotheses — that the
seven dynamic-key suffixes and the four fixed `http` keys cannot collide
with the target key — are discharged by `decide` at each concrete `S`. -/
theorem extract_trend_key (s : RunSummary) (nm : String) (m : Metric) (S VK : String)
    (hmem : (nm, m) ∈ metricsOf s)
    (hsuf : pyEndsWith nm "_response_time" = true)
    (hty : m.type? = some "trend")
    (huniq : ∀ p ∈ metricsOf s, pyEndsWith p.1 "_response_time" = true →
      p.2.type? = some "trend" →
      pyReplace p.1 "_response_time" = pyReplace nm "_response_time" → p = (nm, m))
    (hSV : (S, VK) ∈ trendPairs)
    (hsep : ∀ s1 ∈ ["_avg_ms", "_p90_ms", "_p95_ms", "_max_ms", "_passed", "_rps",
        "_failed"], s1 ≠ S → ∀ a b : String, a ++ s1 ≠ b ++ S)
    (hcounter : "_passed" ≠ S ∧ "_rps" ≠ S ∧ "_failed" ≠ S)
    (hfix : ∀ t ∈ ["http_reqs_total", "http_reqs_rate", "http_req_failed_rate",
        "http_req_failed_count"], ∀ a : String, a ++ S ≠ t) :
    getField? (extract_metrics s) (pyReplace nm "_response_time" ++ S) =
      some (vget m.values VK) := by
  have hEntry : entryFields nm m =
      [(pyReplace nm "_response_time" ++ "_avg_ms", vget m.values "avg"),
       (pyReplace nm "_response_time" ++ "_p90_ms", vget m.values "p(90)"),
       (pyReplace nm "_response_time" ++ "_p95_ms", vget m.values "p(95)"),
       (pyReplace nm "_response_time" ++ "_max_ms", vget m.values "max")] := by
    unfold entryFields
    rw [if_pos (by rw [hsuf, hty]; rfl)]
  have hmemEntry : (pyReplace nm "_response_time" ++ S, vget m.values VK) ∈
      entryFields nm m := by
    rw [hEntry]
    rcases show (S = "_avg_ms" ∧ VK = "avg") ∨ (S = "_p90_ms" ∧ VK = "p(90)") ∨
        (S = "_p95_ms" ∧ VK = "p(95)") ∨ (S = "_max_ms" ∧ VK = "max") from by
      simpa [trendPairs] using hSV with
      ⟨hS, hV⟩ | ⟨hS, hV⟩ | ⟨hS, hV⟩ | ⟨hS, hV⟩ <;> subst hS <;> subst hV <;> simp
  have hloop : getField? (extractRow1 s) (pyReplace nm "_response_time" ++ S) =
      some (vget m.values VK) := by
    apply extract_loop_get
    · intro e he kv hkv hk
      rcases entryFields_writer e kv hkv with ⟨hes, het, p, hp, he4⟩ | ⟨base', hb⟩
      · have hk' : pyReplace e.1 "_response_time" ++ p.1 =
            pyReplace nm "_response_time" ++ S := by
          rw [he4] at hk
          exact hk
        by_cases hj : p.1 = S
        · rw [hj] at hk'
          have hbase := str_append_right_cancel hk'
          have he2 := huniq e he hes het hbase
          rw [he2] at he4
          rw [he4]
          show vget m.values p.2 = vget m.values VK
          have hpS : (S, p.2) ∈ trendPairs := by
            rw [← hj]
            exact (Prod.mk.eta).symm ▸ hp
          rw [trendPairs_functional hpS hSV]
        · refine absurd hk' (hsep p.1 ?_ hj _ _)
          have h4 := trendPairs_fst_mem hp
          simp only [List.mem_cons, List.not_mem_nil, or_false] at h4 ⊢
          tauto
      · rcases hb with hb | hb | hb
        · rw [hb] at hk
          exact absurd hk (hsep "_passed" (by decide) hcounter.1 _ _)
        · rw [hb] at hk
          exact absurd hk (hsep "_rps" (by decide) hcounter.2.1 _ _)
        · rw [hb] at hk
          exact absurd hk (hsep "_failed" (by decide) hcounter.2.2 _ _)
    · exact ⟨(nm, m), hmem, (pyReplace nm "_response_time" ++ S, vget m.values VK),
        hmemEntry, rfl⟩
  have h2 : getField? (extractRow2 s) (pyReplace nm "_response_time" ++ S) =
      getField? (extractRow1 s) (pyReplace nm "_response_time" ++ S) := by
    unfold extractRow2
    cases lookupMetric (metricsOf s) "http_reqs" with
    | none => rfl
    | some mm =>
      apply getField?_setFields_not_mem
      intro kv hkv
      rcases (by simpa using hkv : kv = ("http_reqs_total", vget mm.values "count") ∨
          kv = ("http_reqs_rate", vget mm.values "rate")) with h | h
      · rw [h]
        exact fun he => hfix "http_reqs_total" (by decide) _ he.symm
      · rw [h]
        exact fun he => hfix "http_reqs_rate" (by decide) _ he.symm
  unfold extract_metrics
  cases lookupMetric (metricsOf s) "http_req_failed" with
  | none => rw [h2, hloop]
  | some mm =>
    rw [getField?_setFields_not_mem _ _ _ ?_, h2, hloop]
    intro kv hkv
    rcases (by simpa using hkv : kv = ("http_req_failed_rate", vget mm.values "rate") ∨
        kv = ("http_req_failed_count", vget mm.values "passes")) with h | h
    · rw [h]
      exact fun he => hfix "http_req_failed_rate" (by decide) _ he.symm
    · rw [h]
      exact fun he => hfix "http_req_failed_count" (by decide) _ he.symm

/-- Modelled from the spec: the base name as the spec's words describe it
for C5 — "the name with the suffix stripped", i.e. with one trailing
`_response_time` removed.  The source instead computes
`name.replace('_response_time', '')`, which removes every occurrence;
this definition exists only to state the counterexample. -/
def specTrendBase (nm : String) : String :=
  String.mk (nm.data.take (nm.data.length - "_response_time".data.length))

/-- A document whose one trend metric name contains `_response_time`
twice: once in the middle, once as the suffix. -/
def exS5 : RunSummary :=
  ⟨some 1, some 10, some ⟨some
    [("a_response_time_b_response_time",
      ⟨some "trend", [("avg", 7), ("p(90)", 8), ("p(95)", 9), ("max", 11)]⟩)]⟩⟩

/-- Counterexample to C5 as stated: the metric name ends in
`_response_time` and has type `trend`, yet the extractor output holds no
field under the suffix-stripped base `a_response_time_b` — the emitted
base is `a_b`, every occurrence of the pattern removed. -/
theorem trend_base_suffix_strip_counterexample :
    pyEndsWith "a_response_time_b_response_time" "_response_time" = true ∧
    ("a_response_time_b_response_time",
      Metric.mk (some "trend") [("avg", 7), ("p(90)", 8), ("p(95)", 9), ("max", 11)]) ∈
        metricsOf exS5 ∧
    specTrendBase "a_response_time_b_response_time" = "a_response_time_b" ∧
    getField? (extract_metrics exS5)
      (specTrendBase "a_response_time_b_response_time" ++ "_avg_ms") = none ∧
    getField? (extract_metrics exS5) "a_b_avg_ms" = some 7 := by
  decide

/-- C5 (amended): for every trend metric entry whose name ends in
`_response_time`, the single-pass loop emits exactly the four fields
`{base}_avg_ms`, `{base}_p90_ms`, `{base}_p95_ms`, `{base}_max_ms` with
the metric's `avg`, `p(90)`, `p(95)`, `max` values (each defaulting to 0),
where `base` is the name with **every** occurrence of `_response_time`
removed (Python `str.replace`), not just the trailing one; and when no
other trend entry shares that base, those four fields reach the
extractor's output unchanged. -/
theorem trend_metric_four_fields (s : RunSummary) (nm : String) (m : Metric)
    (hmem : (nm, m) ∈ metricsOf s)
    (hsuf : pyEndsWith nm "_response_time" = true)
    (hty : m.type? = some "trend")
    (huniq : ∀ p ∈ metricsOf s, pyEndsWith p.1 "_response_time" = true →
      p.2.type? = some "trend" →
      pyReplace p.1 "_response_time" = pyReplace nm "_response_time" → p = (nm, m)) :
    entryFields nm m =
      [(pyReplace nm "_response_time" ++ "_avg_ms", vget m.values "avg"),
       (pyReplace nm "_response_time" ++ "_p90_ms", vget m.values "p(90)"),
       (pyReplace nm "_response_time" ++ "_p95_ms", vget m.values "p(95)"),
       (pyReplace nm "_response_time" ++ "_max_ms", vget m.values "max")] ∧
    getField? (extract_metrics s) (pyReplace nm "_response_time" ++ "_avg_ms") =
      some (vget m.values "avg") ∧
    getField? (extract_metrics s) (pyReplace nm "_response_time" ++ "_p90_ms") =
      some (vget m.values "p(90)") ∧
    getField? (extract_metrics s) (pyReplace nm "_response_time" ++ "_p95_ms") =
      some (vget m.values "p(95)") ∧
    getField? (extract_metrics s) (pyReplace nm "_response_time" ++ "_max_ms") =
      some (vget m.values "max") := by
  refine ⟨?_, ?_, ?_, ?_, ?_⟩
  · unfold entryFields
    rw [if_pos (by rw [hsuf, hty]; rfl)]
  · refine extract_trend_key s nm m "_avg_ms" "avg" hmem hsuf hty huniq (by decide) ?_
      (by decide) ?_
    · intro s1 h1 hne a b
      fin_cases h1 <;> first
      | exact absurd rfl hne
      | exact append_ne_append (by decide) (by decide) a b
    · intro t htm a
      fin_cases htm <;> exact append_ne_of_not_suffix (by decide) a
  · refine extract_trend_key s nm m "_p90_ms" "p(90)" hmem hsuf hty huniq (by decide) ?_
      (by decide) ?_
    · intro s1 h1 hne a b
      fin_cases h1 <;> first
      | exact absurd rfl hne
      | exact append_ne_append (by decide) (by decide) a b
    · intro t htm a
      fin_cases htm <;> exact append_ne_of_not_suffix (by decide) a
  · refine extract_trend_key s nm m "_p95_ms" "p(95)" hmem hsuf hty huniq (by decide) ?_
      (by decide) ?_
    · intro s1 h1 hne a b
      fin_cases h1 <;> first
      | exact absurd rfl hne
      | exact append_ne_append (by decide) (by decide) a b
    · intro t htm a
      fin_cases htm <;> exact append_ne_of_not_suffix (by decide) a
  · refine extract_trend_key s nm m "_max_ms" "max" hmem hsuf hty huniq (by decide) ?_
      (by decide) ?_
    · intro s1 h1 hne a b
      fin_cases h1 <;> first
      | exact absurd rfl hne
      | exact append_ne_append (by decide) (by decide) a b
    · intro t htm a
      fin_cases htm <;> exact append_ne_of_not_suffix (by decide) a

/-- Witness summary for the amended C5: the spec's own example, a trend
metric `get_run_response_time` with values 10/20/25/40. -/
def exS5w : RunSummary :=
  ⟨some 1, some 10, some ⟨some
    [("get_run_response_time",
      ⟨some "trend", [("avg", 10), ("p(90)", 20), ("p(95)", 25), ("max", 40)]⟩)]⟩⟩

/-- Witness for the amended C5: on `exS5w` the extractor emits
`get_run_avg_ms=10`, `get_run_p90_ms=20`, `get_run_p95_ms=25`,
`get_run_max_ms=40`. -/
theorem trend_metric_four_fields_witness :
    getField? (extract_metrics exS5w)
      (pyReplace "get_run_response_time" "_response_time" ++ "_avg_ms") =
      some (vget (Metric.mk (some "trend")
        [("avg", 10), ("p(90)", 20), ("p(95)", 25), ("max", 40)]).values "avg") ∧
    getField? (extract_metrics exS5w) "get_run_p95_ms" = some 25 :=
  ⟨(trend_metric_four_fields exS5w "get_run_response_time"
      (Metric.mk (some "trend") [("avg", 10), ("p(90)", 20), ("p(95)", 25), ("max", 40)])
      (by decide) (by decide) rfl (by decide)).2.1,
   by decide⟩
